import Mathlib

/-!
Verification of the binnf serialisation core of PyNNLess
(`src/pynnless/pynnless_binnf.py`).

A byte is modelled as `Fin 256` (Python 2 byte strings are sequences of
bytes).  Wire integers are written with `struct.pack("i", v)` (4-byte
little-endian two's-complement signed 32-bit) and read back with
`struct.unpack("i", data)`.  The byte source is modelled as a list of
bytes together with a cursor position and a `seekable` capability flag
(mirroring the `try: fd.tell() except: return -1` behaviour of `_tell`).
Matrix cells are 4-byte values regardless of their logical type
(int32 / float32 share the width), so a cell is modelled as its raw
32-bit pattern `Fin (2 ^ 32)`; bit-for-bit equality of cells is equality
of these patterns.

Exceptions raised by the Python code are modelled by an error enumeration;
each constructor is documented with the raise site it corresponds to.
-/

namespace Binnf

abbrev Byte := Fin 256

instance : NeZero (2 ^ 32) := ⟨by decide⟩

abbrev Cell := Fin (2 ^ 32)

/-- Numbers and constants defining the serialisation format
(source lines 32-49). -/
def BLOCK_START_SEQUENCE : Nat := 0x4b636c42

def BLOCK_END_SEQUENCE : Nat := 0x426c634b

def BLOCK_TYPE_MATRIX : Nat := 0x01

def TYPE_INT : Int := 0x00

def TYPE_FLOAT : Int := 0x01

/-- `TYPE_MAP`: the dict mapping type tags to numpy dtype names.
A missing key raises `KeyError`, modelled as `none`. -/
def TYPE_MAP (t : Int) : Option String :=
  if t = TYPE_INT then some "int32"
  else if t = TYPE_FLOAT then some "float32"
  else none

def MAX_STR_SIZE : Nat := 1024

def BLOCK_TYPE_LEN : Nat := 4

def SIZE_LEN : Nat := 4

def TYPE_LEN : Nat := 4

def NUMBER_LEN : Nat := 4

/-- The exceptions the code can raise, one constructor per raise site. -/
inductive Err where
  /-- `Exception("Unexpected end of file")`, raised by `_synchronise`,
  `_read_int` (empty read) and `_read_str` (empty read). -/
  | unexpectedEndOfStream
  /-- `struct.error` raised by `struct.unpack("i", data)` inside
  `_read_int` when `data` is non-empty but shorter than 4 bytes, and by
  `struct.pack("i", v)` inside `_write_int` when `v` does not fit a
  signed 32-bit integer. -/
  | structError
  /-- `TypeError` raised inside `_write_str` for an over-long string:
  building the message `"String exceeds string size limit of " +
  MAX_STR_SIZE + " bytes."` concatenates a `str` and an `int`, which in
  Python 2 raises `TypeError` before the intended exception is built. -/
  | typeError
  /-- `Exception("Unexpected block type")` in `deseralise`. -/
  | unsupportedBlockType
  /-- `Exception("Disecrepancy between matrix number of columns and
  header")` in `serialise` and `deseralise`. -/
  | columnCountMismatch
  /-- `KeyError` raised by `TYPE_MAP[x["type"]]` inside
  `header_to_dtype` for an unknown type tag. -/
  | unknownColumnType
  /-- `ValueError` raised by `np.frombuffer` when the buffer length is
  not a multiple of the dtype item size (or the item size is zero). -/
  | valueError
  /-- `Exception("Invalid block length")` in `deseralise`. -/
  | frameLengthMismatch
  /-- `Exception("Block end sequence not found")` in `deseralise`. -/
  | frameEndMarkerMismatch
deriving DecidableEq, Repr

/-- One entry of the data block header: the dicts
`{"name": ..., "type": ...}` used by `serialise` / `deseralise`.
The type tag is the raw (signed) integer from the wire. -/
structure HeaderEntry where
  name : List Byte
  type : Int
deriving DecidableEq, Repr

/-- A numpy array as the code uses it: `rows` records of `cols` cells,
each cell 4 bytes wide, stored row-major in `data`
(`matrix.tobytes()` is exactly the concatenation of the cell bytes).
For a well-formed array `data.length = rows * cols`. -/
structure Matrix where
  rows : Nat
  cols : Nat
  data : List Cell
deriving DecidableEq, Repr

/-- The value carried by one binnf block: the arguments of `serialise`
and the result triple of `deseralise`. -/
structure Block where
  name : List Byte
  header : List HeaderEntry
  matrix : Matrix
deriving DecidableEq, Repr

/-! ### Little-endian 32-bit encoding (`struct.pack("i", ·)` / `struct.unpack("i", ·)`) -/

def byteOf (n : Nat) : Byte := ⟨n % 256, Nat.mod_lt _ (by norm_num)⟩

/-- The four little-endian bytes of `v` (taken mod `2 ^ 32`); this is the
byte string produced by `struct.pack("i", v)` for in-range `v` on the
little-endian platforms the code targets. -/
def pack_i (v : Int) : List Byte :=
  let n : Nat := (v % (2 ^ 32 : Int)).toNat
  [byteOf n, byteOf (n / 2 ^ 8), byteOf (n / 2 ^ 16), byteOf (n / 2 ^ 24)]

/-- Little-endian value of a byte string (first byte least significant). -/
def leVal (bs : List Byte) : Nat :=
  bs.foldr (fun b acc => b.val + 256 * acc) 0

/-- Two's-complement reinterpretation done by `struct.unpack("i", ·)`. -/
def toSigned32 (n : Nat) : Int :=
  if n < 2 ^ 31 then (n : Int) else (n : Int) - 2 ^ 32

/-! ### The byte source (read side) -/

/-- A byte source: the underlying bytes, the cursor, and whether the
source supports `tell()` (seekable files do, pipes do not). -/
structure RStream where
  data : List Byte
  pos : Nat
  seekable : Bool
deriving DecidableEq, Repr

/-- Bytes not yet consumed. -/
def RStream.remaining (fd : RStream) : List Byte :=
  fd.data.drop fd.pos

/-- `fd.read(n)`: returns up to `n` bytes (all remaining bytes when fewer
are available, and all remaining bytes for negative `n`, as for Python
file objects) and advances the cursor by the number of bytes returned. -/
def RStream.read (fd : RStream) (n : Int) : List Byte × RStream :=
  let avail := fd.data.drop fd.pos
  let chunk := if n < 0 then avail else avail.take n.toNat
  (chunk, { fd with pos := fd.pos + chunk.length })

/-- `_tell(fd)` (source lines 99-108): the cursor position, or `-1` when
the source does not support position queries. -/
def _tell (fd : RStream) : Int :=
  if fd.seekable then (fd.pos : Int) else -1

/-- `_read_int` (source lines 87-91): read 4 bytes; an empty read raises
"Unexpected end of file"; `struct.unpack("i", data)` raises
`struct.error` when 1-3 bytes were returned. -/
def _read_int (fd : RStream) : Except Err (Int × RStream) :=
  let r := fd.read 4
  if r.1.length = 0 then .error .unexpectedEndOfStream
  else if r.1.length = 4 then .ok (toSigned32 (leVal r.1), r.2)
  else .error .structError

/-- `_read_str` (source lines 93-97): read a 4-byte length then that many
bytes.  Only an *empty* read raises "Unexpected end of file"; a non-empty
short read is returned as-is (and a declared length of 0 always raises,
because `fd.read(0)` returns the empty string). -/
def _read_str (fd : RStream) : Except Err (List Byte × RStream) :=
  match _read_int fd with
  | .error e => .error e
  | .ok (n, fd1) =>
    let r := fd1.read n
    if r.1.length = 0 then .error .unexpectedEndOfStream
    else .ok (r.1, r.2)

/-- One step of the rolling synchronisation window of `_synchronise`
(source line 83): `sync = (sync >> 8) | (ord(c[0]) << 24)`. -/
def syncStep (sync : Nat) (c : Byte) : Nat :=
  (sync >>> 8) ||| (c.val <<< 24)

/-- The scan loop of `_synchronise`: consume bytes one at a time until
the window equals the marker, returning how many bytes were consumed
(`none` when the source is exhausted first). -/
def syncAux (marker : Nat) (sync : Nat) : List Byte → Option Nat
  | [] => none
  | c :: rest =>
    let sync2 := syncStep sync c
    if sync2 = marker then some 1
    else (syncAux marker sync2 rest).map (· + 1)

/-- `_synchronise` (source lines 77-85). -/
def _synchronise (fd : RStream) (marker : Nat) : Except Err RStream :=
  match syncAux marker 0 fd.remaining with
  | none => .error .unexpectedEndOfStream
  | some k => .ok { fd with pos := fd.pos + k }

/-- `header_to_dtype` (source lines 110-111):
`map(lambda x: (x["name"], TYPE_MAP[x["type"]]), header)`; a `KeyError`
on an unknown tag is modelled by `none`. -/
def header_to_dtype (header : List HeaderEntry) :
    Option (List (List Byte × String)) :=
  header.mapM (fun x => (TYPE_MAP x.type).map (fun t => (x.name, t)))

/-- Split a byte string into consecutive 4-byte little-endian cells
(bytes beyond the last complete cell are ignored; callers guarantee the
length is a multiple of 4). -/
def bytesToCells : List Byte → List Cell
  | b0 :: b1 :: b2 :: b3 :: rest =>
    (⟨b0.val + 2 ^ 8 * b1.val + 2 ^ 16 * b2.val + 2 ^ 24 * b3.val, by
      have h0 := b0.isLt
      have h1 := b1.isLt
      have h2 := b2.isLt
      have h3 := b3.isLt
      omega⟩ : Cell) :: bytesToCells rest
  | _ => []

/-- `np.frombuffer(buffer(buf), dtype=fmt)` for a structured dtype `fmt`
of `fmt.length` 4-byte fields: the item size is `4 * fmt.length`; numpy
raises `ValueError` when the item size is zero or does not divide the
buffer length, and otherwise yields `buf.length / itemsize` records.
(Modelled numpy behaviour; `np.frombuffer` is library code, not part of
this repository.) -/
def frombuffer (buf : List Byte) (fmt : List (List Byte × String)) :
    Except Err Matrix :=
  let itemsize := NUMBER_LEN * fmt.length
  if itemsize = 0 then .error .valueError
  else if buf.length % itemsize ≠ 0 then .error .valueError
  else .ok { rows := buf.length / itemsize, cols := fmt.length,
             data := bytesToCells buf }

/-- The header-reading loop of `deseralise` (source lines 171-176): read
`k` pairs of a length-prefixed name and a 4-byte type tag. -/
def readHeader : Nat → RStream → Except Err (List HeaderEntry × RStream)
  | 0, fd => .ok ([], fd)
  | Nat.succ k, fd =>
    match _read_str fd with
    | .error e => .error e
    | .ok (nm, fd1) =>
      match _read_int fd1 with
      | .error e => .error e
      | .ok (t, fd2) =>
        match readHeader k fd2 with
        | .error e => .error e
        | .ok (hs, fd3) => .ok (⟨nm, t⟩ :: hs, fd3)

/-- `deseralise` after the synchronisation scan (source lines 160-197). -/
def deseraliseBody (fd : RStream) : Except Err Block :=
  match _read_int fd with
  | .error e => .error e
  | .ok (block_len, fd) =>
    let pos0 := _tell fd
    match _read_int fd with
    | .error e => .error e
    | .ok (block_type, fd) =>
      if block_type ≠ (BLOCK_TYPE_MATRIX : Int) then
        .error .unsupportedBlockType
      else
        match _read_str fd with
        | .error e => .error e
        | .ok (name, fd) =>
          match _read_int fd with
          | .error e => .error e
          | .ok (header_len, fd) =>
            match readHeader header_len.toNat fd with
            | .error e => .error e
            | .ok (header, fd) =>
              match _read_int fd with
              | .error e => .error e
              | .ok (rows, fd) =>
                match _read_int fd with
                | .error e => .error e
                | .ok (cols, fd) =>
                  if cols ≠ (header.length : Int) then
                    .error .columnCountMismatch
                  else
                    match header_to_dtype header with
                    | none => .error .unknownColumnType
                    | some fmt =>
                      let r := fd.read (rows * cols * (NUMBER_LEN : Int))
                      match frombuffer r.1 fmt with
                      | .error e => .error e
                      | .ok matrix =>
                        let pos1 := _tell r.2
                        if pos0 ≥ 0 ∧ pos1 ≥ 0 ∧
                            pos1 - pos0 ≠ block_len then
                          .error .frameLengthMismatch
                        else
                          match _read_int r.2 with
                          | .error e => .error e
                          | .ok (block_end, _) =>
                            if block_end ≠ (BLOCK_END_SEQUENCE : Int) then
                              .error .frameEndMarkerMismatch
                            else
                              .ok { name := name, header := header,
                                    matrix := matrix }

/-- `deseralise` (source lines 153-197): synchronise on the start marker,
then parse the block. -/
def deseralise (fd : RStream) : Except Err Block :=
  match _synchronise fd BLOCK_START_SEQUENCE with
  | .error e => .error e
  | .ok fd1 => deseraliseBody fd1

/-! ### The byte sink (write side) -/

/-- Outcome of a sequence of writes: everything written to the sink
before the first exception (if any), and that exception.  Python
exceptions abort the remaining writes but the bytes already written
stay in the sink. -/
structure WOut where
  sink : List Byte
  err : Option Err
deriving DecidableEq, Repr

/-- Sequencing of two write outcomes: if the first failed, the second
never runs. -/
def wappend (a b : WOut) : WOut :=
  match a.err with
  | some _ => a
  | none => ⟨a.sink ++ b.sink, b.err⟩

/-- `_write_int` (source lines 67-68): `struct.pack("i", i)` raises
`struct.error` when `i` does not fit a signed 32-bit integer. -/
def _write_int (i : Int) : WOut :=
  if -(2 ^ 31) ≤ i ∧ i < 2 ^ 31 then ⟨pack_i i, none⟩
  else ⟨[], some .structError⟩

/-- `_write_str` (source lines 70-75): an over-long string raises
`TypeError` while building the error message (see `Err.typeError`);
otherwise the 4-byte length, then the bytes. -/
def _write_str (s : List Byte) : WOut :=
  if s.length > MAX_STR_SIZE then ⟨[], some .typeError⟩
  else wappend (_write_int (s.length : Int)) ⟨s, none⟩

/-- `_str_len` (source lines 51-52). -/
def _str_len (s : List Byte) : Nat := SIZE_LEN + s.length

/-- `_header_len` (source lines 54-58). -/
def _header_len (header : List HeaderEntry) : Nat :=
  header.foldl (fun res elem => res + (_str_len elem.name + TYPE_LEN)) SIZE_LEN

/-- `_matrix_len` (source lines 60-61):
`2 * SIZE_LEN + matrix.size * matrix.dtype.itemsize`; the number of
stored scalars times their 4-byte width is `4 * data.length`. -/
def _matrix_len (matrix : Matrix) : Nat :=
  2 * SIZE_LEN + matrix.data.length * NUMBER_LEN

/-- `_block_len` (source lines 63-65). -/
def _block_len (name : List Byte) (header : List HeaderEntry)
    (matrix : Matrix) : Nat :=
  BLOCK_TYPE_LEN + _str_len name + _header_len header + _matrix_len matrix

/-- The four little-endian bytes of one 4-byte cell. -/
def cellBytes (c : Cell) : List Byte :=
  [byteOf c.val, byteOf (c.val / 2 ^ 8), byteOf (c.val / 2 ^ 16),
   byteOf (c.val / 2 ^ 24)]

/-- `matrix.tobytes()`: the raw row-major cell bytes. -/
def tobytes (m : Matrix) : List Byte :=
  (m.data.map cellBytes).flatten

/-- The header-writing loop of `serialise` (source lines 131-134). -/
def writeHeader (header : List HeaderEntry) : WOut :=
  header.foldl
    (fun acc e => wappend acc (wappend (_write_str e.name) (_write_int e.type)))
    ⟨[], none⟩

/-- `serialise` (source lines 113-151).  The shape inspection of lines
137-141 yields `rows = matrix.rows` and `cols = matrix.cols` for both
the 1-D structured and the 2-D array case. -/
def serialise (name : List Byte) (header : List HeaderEntry)
    (matrix : Matrix) : WOut :=
  wappend (_write_int (BLOCK_START_SEQUENCE : Int))
  (wappend (_write_int (_block_len name header matrix : Int))
  (wappend (_write_int (BLOCK_TYPE_MATRIX : Int))
  (wappend (_write_str name)
  (wappend (_write_int (header.length : Int))
  (wappend (writeHeader header)
    (let rows := matrix.rows
     let cols := matrix.cols
     if cols ≠ header.length then ⟨[], some .columnCountMismatch⟩
     else
       wappend (_write_int (rows : Int))
       (wappend (_write_int (cols : Int))
       (wappend ⟨tobytes matrix, none⟩
       (_write_int (BLOCK_END_SEQUENCE : Int))))))))))

def serialiseBlock (b : Block) : WOut :=
  serialise b.name b.header b.matrix

instance {ε α : Type} [DecidableEq ε] [DecidableEq α] :
    DecidableEq (Except ε α) := fun a b =>
  match a, b with
  | .ok x, .ok y =>
    if h : x = y then .isTrue (by rw [h])
    else .isFalse (fun hh => h (Except.ok.inj hh))
  | .error x, .error y =>
    if h : x = y then .isTrue (by rw [h])
    else .isFalse (fun hh => h (Except.error.inj hh))
  | .ok _, .error _ => .isFalse (fun hh => Except.noConfusion hh)
  | .error _, .ok _ => .isFalse (fun hh => Except.noConfusion hh)

/-! ### Concrete inputs used by counterexamples and witnesses -/

/-- A block that satisfies every condition listed by the round-trip
claim (name and column names at most 1024 bytes, matrix column count
equal to the number of column specs) but whose name is empty. -/
def emptyNameBlock : Block :=
  { name := [], header := [⟨[0x74], 1⟩],
    matrix := { rows := 1, cols := 1, data := [⟨0, by decide⟩] } }

/-- A small fully valid block: name "sp", one float32 column "t",
three rows. -/
def sampleBlock : Block :=
  { name := [0x73, 0x70], header := [⟨[0x74], 1⟩],
    matrix := { rows := 3, cols := 1,
                data := [⟨1, by decide⟩, ⟨2, by decide⟩,
                         ⟨0x3dcccccd, by decide⟩] } }

/-- A hand-built wire prefix: start marker, declared length 100, block
type 1, name "n", column count 1, then one column named "c" with the
unknown type tag 7 — and nothing after the header (the row count is
missing). -/
def unknownTagTruncated : List Byte :=
  pack_i (BLOCK_START_SEQUENCE : Int) ++ pack_i 100 ++ pack_i 1 ++
  pack_i 1 ++ [0x6e] ++ pack_i 1 ++ pack_i 1 ++ [0x63] ++ pack_i 7

/-! ### Arithmetic facts about the 32-bit encoding -/

theorem pack_i_length (v : Int) : (pack_i v).length = 4 := rfl

theorem leVal_pack (v : Int) : leVal (pack_i v) = (v % (2 ^ 32 : Int)).toNat := by
  have hm : (v % (2 ^ 32 : Int)).toNat < 2 ^ 32 := by omega
  simp only [pack_i, leVal, byteOf, List.foldr]
  omega

theorem toSigned32_leVal_pack (v : Int) (h1 : -(2 ^ 31) ≤ v) (h2 : v < 2 ^ 31) :
    toSigned32 (leVal (pack_i v)) = v := by
  rw [leVal_pack]
  unfold toSigned32
  split <;> omega

theorem toSigned32_leVal_pack_nat (n : Nat) (h : n < 2 ^ 31) :
    toSigned32 (leVal (pack_i (n : Int))) = (n : Int) := by
  apply toSigned32_leVal_pack <;> omega

/-! ### Stream primitives -/

theorem remaining_advance (fd : RStream) (k : Nat) :
    ({ fd with pos := fd.pos + k } : RStream).remaining = fd.remaining.drop k := by
  simp only [RStream.remaining, ← List.drop_drop]

theorem remaining_at (d : List Byte) (p k : Nat) (s : Bool) :
    ({ data := d, pos := p + k, seekable := s } : RStream).remaining =
      (({ data := d, pos := p, seekable := s } : RStream).remaining).drop k := by
  simp only [RStream.remaining, ← List.drop_drop]

theorem drop_append_len {α : Type} (xs ys : List α) (n : Nat)
    (h : xs.length = n) : (xs ++ ys).drop n = ys := by
  rw [← h, List.drop_left]

theorem take_append_len {α : Type} (xs ys : List α) (n : Nat)
    (h : xs.length = n) : (xs ++ ys).take n = xs := by
  rw [← h, List.take_left]

/-- Reading exactly the length of a fully available chunk. -/
theorem read_len (fd : RStream) (xs rest : List Byte) (n : Nat)
    (h : fd.remaining = xs ++ rest) (hn : xs.length = n) :
    fd.read (n : Int) = (xs, { fd with pos := fd.pos + n }) := by
  unfold RStream.read
  rw [show fd.data.drop fd.pos = xs ++ rest from h]
  have h0 : ¬ ((n : Int) < 0) := by omega
  have h1 : ((n : Int)).toNat = n := by omega
  simp only [h0, if_false, h1, take_append_len xs rest n hn, hn]

/-- Reading more than is available returns everything and exhausts the
stream. -/
theorem read_short (fd : RStream) (n : Int) (hn : 0 ≤ n)
    (h : (fd.remaining).length < n.toNat) :
    fd.read n = (fd.remaining, { fd with pos := fd.pos + fd.remaining.length }) ∧
      ({ fd with pos := fd.pos + fd.remaining.length } : RStream).remaining = [] := by
  constructor
  · unfold RStream.read
    have h0 : ¬ (n < 0) := by omega
    simp only [h0, if_false]
    rw [List.take_of_length_le (by exact Nat.le_of_lt h)]
    rfl
  · rw [remaining_advance, List.drop_length]

theorem read_int_exact (fd : RStream) (v : Int) (rest : List Byte)
    (h : fd.remaining = pack_i v ++ rest)
    (h1 : -(2 ^ 31) ≤ v) (h2 : v < 2 ^ 31) :
    _read_int fd = .ok (v, { fd with pos := fd.pos + 4 }) := by
  unfold _read_int
  rw [show ((4 : Int)) = ((4 : Nat) : Int) from rfl,
    read_len fd (pack_i v) rest 4 h (pack_i_length v)]
  simp only [pack_i_length]
  norm_num [toSigned32_leVal_pack v h1 h2]

theorem read_int_exact_nat (fd : RStream) (n : Nat) (rest : List Byte)
    (h : fd.remaining = pack_i (n : Int) ++ rest) (h2 : n < 2 ^ 31) :
    _read_int fd = .ok ((n : Int), { fd with pos := fd.pos + 4 }) :=
  read_int_exact fd (n : Int) rest h (by omega) (by omega)

theorem read_str_exact (fd : RStream) (s rest : List Byte)
    (h : fd.remaining = pack_i (s.length : Int) ++ (s ++ rest))
    (hne : s ≠ []) (hlen : s.length < 2 ^ 31) :
    _read_str fd = .ok (s, { fd with pos := fd.pos + (4 + s.length) }) := by
  unfold _read_str
  rw [read_int_exact_nat fd s.length (s ++ rest) h hlen]
  dsimp only
  have hrem : ({ fd with pos := fd.pos + 4 } : RStream).remaining = s ++ rest := by
    rw [remaining_advance, h, drop_append_len _ _ 4 (pack_i_length _)]
  rw [read_len { fd with pos := fd.pos + 4 } s rest s.length hrem rfl]
  have hs0 : s.length ≠ 0 := fun hc => hne (List.eq_nil_of_length_eq_zero hc)
  simp only [hs0, if_false]
  have : fd.pos + 4 + s.length = fd.pos + (4 + s.length) := by omega
  rw [this]

/-! ### The synchronisation scan -/

theorem syncStep_eq (s : Nat) (c : Byte) (hs : s < 2 ^ 32) :
    syncStep s c = s / 2 ^ 8 + c.val * 2 ^ 24 := by
  have hc := c.isLt
  have hlt : s / 2 ^ 8 < 2 ^ 24 := by omega
  have h := Nat.mul_add_lt_is_or hlt c.val
  unfold syncStep
  rw [Nat.shiftRight_eq_div_pow, Nat.shiftLeft_eq, Nat.lor_comm, mul_comm, ← h]
  ring

theorem syncStep_lt (s : Nat) (c : Byte) (hs : s < 2 ^ 32) :
    syncStep s c < 2 ^ 32 := by
  rw [syncStep_eq s c hs]
  have := c.isLt
  omega

/-- The scanner consumes exactly the four marker bytes when they head the
stream, from any window state: no proper suffix of the marker byte
sequence extends to an earlier match. -/
theorem syncAux_pack_marker (s : Nat) (hs : s < 2 ^ 32) (rest : List Byte) :
    syncAux BLOCK_START_SEQUENCE s (pack_i (BLOCK_START_SEQUENCE : Int) ++ rest) =
      some 4 := by
  have hp : pack_i (BLOCK_START_SEQUENCE : Int) =
      [(66 : Byte), 108, 99, 75] := by decide
  rw [hp]
  have hv66 : ((66 : Byte)).val = 66 := rfl
  have hv108 : ((108 : Byte)).val = 108 := rfl
  have hv99 : ((99 : Byte)).val = 99 := rfl
  have hv75 : ((75 : Byte)).val = 75 := rfl
  have e1 := syncStep_eq s 66 hs
  rw [hv66] at e1
  have l1 : syncStep s 66 < 2 ^ 32 := syncStep_lt s 66 hs
  have e2 := syncStep_eq (syncStep s 66) 108 l1
  rw [hv108] at e2
  have l2 : syncStep (syncStep s 66) 108 < 2 ^ 32 := syncStep_lt _ 108 l1
  have e3 := syncStep_eq (syncStep (syncStep s 66) 108) 99 l2
  rw [hv99] at e3
  have l3 : syncStep (syncStep (syncStep s 66) 108) 99 < 2 ^ 32 :=
    syncStep_lt _ 99 l2
  have e4 := syncStep_eq (syncStep (syncStep (syncStep s 66) 108) 99) 75 l3
  rw [hv75] at e4
  have n1 : syncStep s 66 ≠ BLOCK_START_SEQUENCE := by
    rw [e1]; unfold BLOCK_START_SEQUENCE; omega
  have n2 : syncStep (syncStep s 66) 108 ≠ BLOCK_START_SEQUENCE := by
    rw [e2, e1]; unfold BLOCK_START_SEQUENCE; omega
  have n3 : syncStep (syncStep (syncStep s 66) 108) 99 ≠ BLOCK_START_SEQUENCE := by
    rw [e3, e2, e1]; unfold BLOCK_START_SEQUENCE; omega
  have y4 : syncStep (syncStep (syncStep (syncStep s 66) 108) 99) 75 =
      BLOCK_START_SEQUENCE := by
    rw [e4, e3, e2, e1]; unfold BLOCK_START_SEQUENCE; omega
  simp only [List.cons_append, List.nil_append, syncAux, n1, if_false, n2, n3,
    y4, if_true]
  rfl

/-- The window state after scanning a byte list. -/
def syncFold (s : Nat) (g : List Byte) : Nat := g.foldl syncStep s

/-- `scanClean marker sync g` states that the rolling window never
equals `marker` at any point while scanning `g` starting from window
state `sync`.  For `sync = 0` this says the marker byte sequence does
not occur inside `g` (the window cannot equal the marker within the
first three scanned bytes because every marker byte is nonzero). -/
def scanClean (marker : Nat) (sync : Nat) : List Byte → Bool
  | [] => true
  | c :: rest =>
    (syncStep sync c != marker) && scanClean marker (syncStep sync c) rest

theorem syncFold_lt (g : List Byte) (s : Nat) (hs : s < 2 ^ 32) :
    syncFold s g < 2 ^ 32 := by
  induction g generalizing s with
  | nil => exact hs
  | cons c g ih => exact ih _ (syncStep_lt s c hs)

theorem syncAux_append (marker : Nat) (g : List Byte) (s : Nat) (q : List Byte)
    (h : scanClean marker s g = true) :
    syncAux marker s (g ++ q) =
      (syncAux marker (syncFold s g) q).map (· + g.length) := by
  induction g generalizing s with
  | nil =>
    show syncAux marker s q = (syncAux marker s q).map (· + 0)
    cases syncAux marker s q <;> rfl
  | cons c g ih =>
    simp only [scanClean, Bool.and_eq_true, bne_iff_ne] at h
    simp only [List.cons_append, syncAux]
    rw [if_neg h.1]
    have ha : g.append q = g ++ q := rfl
    rw [ha, ih _ h.2]
    show _ = (syncAux marker (syncFold (syncStep s c) g) q).map (· + (g.length + 1))
    cases syncAux marker (syncFold (syncStep s c) g) q with
    | none => rfl
    | some k =>
      show some (k + g.length + 1) = some (k + (g.length + 1))
      rw [Nat.add_assoc]

/-- Synchronisation over clean garbage followed by a marker consumes the
garbage and the marker. -/
theorem synchronise_garbage (fd : RStream) (g rest : List Byte)
    (hg : scanClean BLOCK_START_SEQUENCE 0 g = true)
    (h : fd.remaining = g ++ (pack_i (BLOCK_START_SEQUENCE : Int) ++ rest)) :
    _synchronise fd BLOCK_START_SEQUENCE =
      .ok { fd with pos := fd.pos + (4 + g.length) } := by
  unfold _synchronise
  rw [h, syncAux_append _ _ _ _ hg,
    syncAux_pack_marker _ (syncFold_lt g 0 (by norm_num)) rest]
  rfl

/-- Synchronisation on a stream that begins with the marker. -/
theorem synchronise_frame (fd : RStream) (rest : List Byte)
    (h : fd.remaining = pack_i (BLOCK_START_SEQUENCE : Int) ++ rest) :
    _synchronise fd BLOCK_START_SEQUENCE = .ok { fd with pos := fd.pos + 4 } := by
  unfold _synchronise
  rw [h, syncAux_pack_marker 0 (by norm_num) rest]

/-! ### Wire shape of a header and of a frame -/

/-- The wire bytes of one header entry. -/
def entryBytes (e : HeaderEntry) : List Byte :=
  pack_i (e.name.length : Int) ++ e.name ++ pack_i e.type

/-- The wire bytes of the whole column header. -/
def headerBytes (hs : List HeaderEntry) : List Byte :=
  (hs.map entryBytes).flatten

theorem entryBytes_length (e : HeaderEntry) :
    (entryBytes e).length = 4 + e.name.length + 4 := by
  simp [entryBytes, pack_i_length]
  omega

/-- Conditions under which the header loop reads back exactly what was
written: nonempty names (a zero-length name makes `_read_str` raise) of
bounded length, and 32-bit-representable type tags. -/
def headerReadable (hs : List HeaderEntry) : Prop :=
  ∀ e ∈ hs, e.name ≠ [] ∧ e.name.length < 2 ^ 31 ∧
    -(2 ^ 31) ≤ e.type ∧ e.type < 2 ^ 31

instance (hs : List HeaderEntry) : Decidable (headerReadable hs) := by
  unfold headerReadable
  infer_instance

theorem readHeader_exact (hs : List HeaderEntry) (fd : RStream)
    (rest : List Byte) (hgood : headerReadable hs)
    (h : fd.remaining = headerBytes hs ++ rest) :
    readHeader hs.length fd =
      .ok (hs, { fd with pos := fd.pos + (headerBytes hs).length }) := by
  induction hs generalizing fd with
  | nil =>
    show Except.ok ([], fd) = _
    simp [headerBytes]
  | cons e hs ih =>
    obtain ⟨hne, hlen, ht1, ht2⟩ := hgood e (by simp)
    have hshape : fd.remaining =
        pack_i (e.name.length : Int) ++
          (e.name ++ (pack_i e.type ++ (headerBytes hs ++ rest))) := by
      rw [h]
      simp [headerBytes, entryBytes]
    show readHeader (hs.length + 1) fd = _
    unfold readHeader
    rw [read_str_exact fd e.name _ hshape hne hlen]
    dsimp only
    have hrem1 : ({ fd with pos := fd.pos + (4 + e.name.length) } : RStream).remaining =
        pack_i e.type ++ (headerBytes hs ++ rest) := by
      rw [remaining_advance, hshape, ← List.append_assoc,
        drop_append_len _ _ (4 + e.name.length) (by simp [pack_i_length])]
    rw [read_int_exact _ e.type _ hrem1 ht1 ht2]
    dsimp only
    have hrem2 : ({ fd with pos := fd.pos + (4 + e.name.length) + 4 } : RStream).remaining =
        headerBytes hs ++ rest := by
      rw [remaining_at, hrem1, drop_append_len _ _ 4 (pack_i_length _)]
    have hgood2 : headerReadable hs :=
      fun x hx => hgood x (List.mem_cons_of_mem e hx)
    rw [ih _ hgood2 hrem2]
    dsimp only
    have hpos : fd.pos + (4 + e.name.length) + 4 + (headerBytes hs).length =
        fd.pos + (headerBytes (e :: hs)).length := by
      have : (headerBytes (e :: hs)).length =
          (4 + e.name.length + 4) + (headerBytes hs).length := by
        simp [headerBytes, entryBytes, pack_i_length]
        omega
      rw [this]
      omega
    rw [hpos]

/-! ### Evaluating the writer -/

theorem wappend_none (x : List Byte) (b : WOut) :
    wappend ⟨x, none⟩ b = ⟨x ++ b.sink, b.err⟩ := rfl

theorem wappend_some (x : List Byte) (e : Err) (b : WOut) :
    wappend ⟨x, some e⟩ b = ⟨x, some e⟩ := rfl

theorem write_int_ok (v : Int) (h1 : -(2 ^ 31) ≤ v) (h2 : v < 2 ^ 31) :
    _write_int v = ⟨pack_i v, none⟩ := by
  unfold _write_int
  rw [if_pos (show -(2 ^ 31 : Int) ≤ v ∧ v < 2 ^ 31 from ⟨h1, h2⟩)]

theorem write_int_ok_nat (n : Nat) (h : n < 2 ^ 31) :
    _write_int (n : Int) = ⟨pack_i (n : Int), none⟩ :=
  write_int_ok _ (by omega) (by omega)

theorem write_str_ok (s : List Byte) (h : s.length ≤ MAX_STR_SIZE) :
    _write_str s = ⟨pack_i (s.length : Int) ++ s, none⟩ := by
  unfold _write_str
  rw [if_neg (by omega), write_int_ok_nat s.length
    (by unfold MAX_STR_SIZE at h; omega), wappend_none]

/-- Conditions under which the writer accepts a header: short enough
names and 32-bit-representable type tags. -/
def headerWritable (hs : List HeaderEntry) : Prop :=
  ∀ e ∈ hs, e.name.length ≤ MAX_STR_SIZE ∧
    -(2 ^ 31) ≤ e.type ∧ e.type < 2 ^ 31

instance (hs : List HeaderEntry) : Decidable (headerWritable hs) := by
  unfold headerWritable
  infer_instance

theorem writeHeader_foldl (hs : List HeaderEntry) (acc : List Byte)
    (h : headerWritable hs) :
    hs.foldl
      (fun acc e => wappend acc (wappend (_write_str e.name) (_write_int e.type)))
      ⟨acc, none⟩ = ⟨acc ++ headerBytes hs, none⟩ := by
  induction hs generalizing acc with
  | nil => simp [headerBytes]
  | cons e hs ih =>
    obtain ⟨hlen, ht1, ht2⟩ := h e (by simp)
    show List.foldl _ (wappend ⟨acc, none⟩ (wappend (_write_str e.name) (_write_int e.type))) hs = _
    rw [write_str_ok e.name hlen, write_int_ok e.type ht1 ht2, wappend_none,
      wappend_none]
    dsimp only
    rw [ih _ (fun x hx => h x (List.mem_cons_of_mem e hx))]
    simp [headerBytes, entryBytes, List.append_assoc]

theorem writeHeader_ok (hs : List HeaderEntry) (h : headerWritable hs) :
    writeHeader hs = ⟨headerBytes hs, none⟩ := by
  unfold writeHeader
  rw [writeHeader_foldl hs [] h]
  rfl

/-! ### Length bookkeeping -/

theorem _header_len_eq (hs : List HeaderEntry) :
    _header_len hs = 4 + (headerBytes hs).length := by
  suffices hgen : ∀ n : Nat, hs.foldl
      (fun res elem => res + (_str_len elem.name + TYPE_LEN)) n =
      n + (headerBytes hs).length by
    have := hgen SIZE_LEN
    unfold _header_len
    rw [this]
    rfl
  induction hs with
  | nil => intro n; simp [headerBytes]
  | cons e hs ih =>
    intro n
    show List.foldl _ (n + (_str_len e.name + TYPE_LEN)) hs = _
    rw [ih]
    have h1 : (headerBytes (e :: hs)).length =
        (4 + e.name.length + 4) + (headerBytes hs).length := by
      simp [headerBytes, entryBytes, pack_i_length]
      omega
    unfold _str_len TYPE_LEN SIZE_LEN
    omega

theorem header_count_le (hs : List HeaderEntry) :
    hs.length ≤ (headerBytes hs).length := by
  induction hs with
  | nil => simp [headerBytes]
  | cons e hs ih =>
    have h1 : (headerBytes (e :: hs)).length =
        (4 + e.name.length + 4) + (headerBytes hs).length := by
      simp [headerBytes, entryBytes, pack_i_length]
      omega
    rw [h1]
    simp only [List.length_cons]
    omega

theorem tobytes_length (m : Matrix) :
    (tobytes m).length = 4 * m.data.length := by
  unfold tobytes
  induction m.data with
  | nil => rfl
  | cons c l ih =>
    simp only [List.map_cons, List.flatten_cons, List.length_append, ih,
      List.length_cons]
    show 4 + _ = _
    omega

theorem _block_len_eq (name : List Byte) (hs : List HeaderEntry) (m : Matrix) :
    _block_len name hs m =
      4 + (4 + name.length) + (4 + (headerBytes hs).length) +
        (8 + m.data.length * 4) := by
  unfold _block_len _str_len _matrix_len BLOCK_TYPE_LEN SIZE_LEN NUMBER_LEN
  rw [_header_len_eq]

/-! ### The serialised frame -/

/-- The wire bytes of a frame after the start marker, with an arbitrary
value `L` in the declared-length field: declared length, block type,
length-prefixed name, column count, column header, row count, column
count, raw matrix bytes, end marker. -/
def frameTailWithLen (b : Block) (L : Nat) : List Byte :=
  pack_i (L : Int) ++
  (pack_i (BLOCK_TYPE_MATRIX : Int) ++
  (pack_i (b.name.length : Int) ++
  (b.name ++
  (pack_i (b.header.length : Int) ++
  (headerBytes b.header ++
  (pack_i (b.matrix.rows : Int) ++
  (pack_i (b.matrix.cols : Int) ++
  (tobytes b.matrix ++
  pack_i (BLOCK_END_SEQUENCE : Int)))))))))

/-- The wire bytes of a frame after the start marker, as the writer
produces them (correct declared length). -/
def frameTail (b : Block) : List Byte :=
  frameTailWithLen b (_block_len b.name b.header b.matrix)

/-- The complete wire bytes of a frame. -/
def frameBytes (b : Block) : List Byte :=
  pack_i (BLOCK_START_SEQUENCE : Int) ++ frameTail b

/-- Conditions under which `serialise` succeeds: names within the 1024
byte limit, 32-bit-representable type tags, a matrix whose stored data
matches its shape and whose column count matches the header, and sizes
that fit the signed 32-bit wire fields. -/
def WritableBlock (b : Block) : Prop :=
  b.name.length ≤ MAX_STR_SIZE ∧
  headerWritable b.header ∧
  b.matrix.cols = b.header.length ∧
  b.matrix.data.length = b.matrix.rows * b.matrix.cols ∧
  b.matrix.rows < 2 ^ 31 ∧
  _block_len b.name b.header b.matrix < 2 ^ 31

instance (b : Block) : Decidable (WritableBlock b) := by
  unfold WritableBlock
  infer_instance

theorem count_lt_of_block_len (b : Block)
    (h : _block_len b.name b.header b.matrix < 2 ^ 31) :
    b.header.length < 2 ^ 31 := by
  have h1 := header_count_le b.header
  have h2 := _block_len_eq b.name b.header b.matrix
  omega

theorem serialise_ok (b : Block) (h : WritableBlock b) :
    serialiseBlock b = ⟨frameBytes b, none⟩ := by
  obtain ⟨hname, hheader, hcols, hdata, hrows, hlen⟩ := h
  unfold serialiseBlock serialise
  rw [write_int_ok_nat BLOCK_START_SEQUENCE (by norm_num [BLOCK_START_SEQUENCE]),
    write_int_ok_nat _ hlen,
    write_int_ok_nat BLOCK_TYPE_MATRIX (by norm_num [BLOCK_TYPE_MATRIX]),
    write_str_ok b.name hname,
    write_int_ok_nat b.header.length (count_lt_of_block_len b hlen),
    writeHeader_ok b.header hheader]
  rw [if_neg (show ¬ b.matrix.cols ≠ b.header.length from by omega)]
  rw [write_int_ok_nat b.matrix.rows hrows,
    write_int_ok_nat b.matrix.cols (by rw [hcols]; exact count_lt_of_block_len b hlen),
    write_int_ok_nat BLOCK_END_SEQUENCE (by norm_num [BLOCK_END_SEQUENCE])]
  simp only [wappend_none]
  unfold frameBytes frameTail frameTailWithLen
  simp [List.append_assoc]

/-! ### Evaluating the reader on a written frame -/

theorem bytesToCells_cells (l : List Cell) :
    bytesToCells ((l.map cellBytes).flatten) = l := by
  induction l with
  | nil => rfl
  | cons c l ih =>
    show bytesToCells (cellBytes c ++ _) = _
    simp only [cellBytes, List.cons_append, List.nil_append, bytesToCells, ih]
    congr 1
    apply Fin.ext
    simp only [byteOf]
    have := c.isLt
    omega

theorem header_to_dtype_ok (hs : List HeaderEntry)
    (h : ∀ e ∈ hs, e.type = TYPE_INT ∨ e.type = TYPE_FLOAT) :
    ∃ fmt, header_to_dtype hs = some fmt ∧ fmt.length = hs.length := by
  induction hs with
  | nil => exact ⟨[], rfl, rfl⟩
  | cons e hs ih =>
    obtain ⟨fmt, hf, hl⟩ := ih (fun x hx => h x (List.mem_cons_of_mem e hx))
    have he : ∃ t, TYPE_MAP e.type = some t := by
      rcases h e (by simp) with h1 | h1 <;> rw [h1] <;> exact ⟨_, rfl⟩
    obtain ⟨t, ht⟩ := he
    refine ⟨(e.name, t) :: fmt, ?_, by simp [hl]⟩
    unfold header_to_dtype at hf ⊢
    rw [List.mapM_cons, ht, hf]
    rfl

theorem frombuffer_tobytes (m : Matrix) (fmt : List (List Byte × String))
    (hc : fmt.length = m.cols) (h0 : 0 < m.cols)
    (hd : m.data.length = m.rows * m.cols) :
    frombuffer (tobytes m) fmt = .ok m := by
  have hlen : (tobytes m).length = 4 * m.data.length := tobytes_length m
  have hmul : (tobytes m).length = (4 * m.cols) * m.rows := by
    rw [hlen, hd]; ring
  unfold frombuffer NUMBER_LEN
  dsimp only
  rw [hc]
  rw [if_neg (by omega)]
  rw [if_neg (show ¬ ((tobytes m).length % (4 * m.cols) ≠ 0) from by
    rw [hmul, Nat.mul_mod_right]; omega)]
  have hdiv : (tobytes m).length / (4 * m.cols) = m.rows := by
    rw [hmul]; exact Nat.mul_div_cancel_left _ (by omega)
  rw [hdiv, show bytesToCells (tobytes m) = m.data from
    bytesToCells_cells m.data]

/-- Conditions under which a written frame is read back verbatim: a
writable block with nonempty names, at least one column, and only
resolvable type tags. -/
def ValidBlock (b : Block) : Prop :=
  WritableBlock b ∧ b.name ≠ [] ∧ 0 < b.matrix.cols ∧
  (∀ e ∈ b.header, e.name ≠ [] ∧ (e.type = TYPE_INT ∨ e.type = TYPE_FLOAT))

instance (b : Block) : Decidable (ValidBlock b) := by
  unfold ValidBlock
  infer_instance

/-- The core parse statement: on any stream whose unread part starts
with the frame tail written for a valid block, except that the
declared-length field holds an arbitrary 32-bit value `L`, the body
parser returns the block — unless the source is seekable and `L` is not
the true length, in which case it reports the length mismatch.  Holds
for any cursor position. -/
theorem deseraliseBody_generic (b : Block) (L : Nat) (fd : RStream)
    (post : List Byte) (h : ValidBlock b) (hL : L < 2 ^ 31)
    (hrem : fd.remaining = frameTailWithLen b L ++ post) :
    deseraliseBody fd =
      if fd.seekable = true ∧ L ≠ _block_len b.name b.header b.matrix then
        .error .frameLengthMismatch
      else .ok b := by
  obtain ⟨⟨hname, hheader, hcols, hdata, hrows, hblen⟩, hne, hcpos, hvalid⟩ := h
  have hreadable : headerReadable b.header := by
    intro e he
    obtain ⟨h1, h2⟩ := hvalid e he
    obtain ⟨h3, h4, h5⟩ := hheader e he
    refine ⟨h1, by unfold MAX_STR_SIZE at h3; omega, h4, h5⟩
  have hrem1 : fd.remaining =
      pack_i ((L : Nat) : Int) ++
      (pack_i ((BLOCK_TYPE_MATRIX : Nat) : Int) ++
      (pack_i (b.name.length : Int) ++
      (b.name ++
      (pack_i (b.header.length : Int) ++
      (headerBytes b.header ++
      (pack_i ((b.matrix.rows : Nat) : Int) ++
      (pack_i ((b.matrix.cols : Nat) : Int) ++
      (tobytes b.matrix ++
      (pack_i ((BLOCK_END_SEQUENCE : Nat) : Int) ++ post))))))))) := by
    rw [hrem]
    unfold frameTailWithLen
    simp [List.append_assoc]
  unfold deseraliseBody
  rw [read_int_exact_nat fd _ _ hrem1 hL]
  dsimp only
  have hrem2 : ({ fd with pos := fd.pos + 4 } : RStream).remaining =
      pack_i ((BLOCK_TYPE_MATRIX : Nat) : Int) ++
      (pack_i (b.name.length : Int) ++
      (b.name ++
      (pack_i (b.header.length : Int) ++
      (headerBytes b.header ++
      (pack_i ((b.matrix.rows : Nat) : Int) ++
      (pack_i ((b.matrix.cols : Nat) : Int) ++
      (tobytes b.matrix ++
      (pack_i ((BLOCK_END_SEQUENCE : Nat) : Int) ++ post)))))))) := by
    rw [remaining_at, hrem1, drop_append_len _ _ 4 (pack_i_length _)]
  rw [read_int_exact_nat _ _ _ hrem2 (by norm_num [BLOCK_TYPE_MATRIX])]
  dsimp only
  rw [if_neg (show ¬ ((BLOCK_TYPE_MATRIX : Nat) : Int) ≠ (BLOCK_TYPE_MATRIX : Int)
    from by simp)]
  have hrem3 : ({ fd with pos := fd.pos + 4 + 4 } : RStream).remaining =
      pack_i (b.name.length : Int) ++
      (b.name ++
      (pack_i (b.header.length : Int) ++
      (headerBytes b.header ++
      (pack_i ((b.matrix.rows : Nat) : Int) ++
      (pack_i ((b.matrix.cols : Nat) : Int) ++
      (tobytes b.matrix ++
      (pack_i ((BLOCK_END_SEQUENCE : Nat) : Int) ++ post))))))) := by
    rw [remaining_at, hrem2, drop_append_len _ _ 4 (pack_i_length _)]
  rw [read_str_exact _ b.name _ hrem3 hne
    (by unfold MAX_STR_SIZE at hname; omega)]
  dsimp only
  have hrem4 : ({ fd with pos := fd.pos + 4 + 4 + (4 + b.name.length) } :
      RStream).remaining =
      pack_i (b.header.length : Int) ++
      (headerBytes b.header ++
      (pack_i ((b.matrix.rows : Nat) : Int) ++
      (pack_i ((b.matrix.cols : Nat) : Int) ++
      (tobytes b.matrix ++
      (pack_i ((BLOCK_END_SEQUENCE : Nat) : Int) ++ post))))) := by
    rw [remaining_at, hrem3, ← List.append_assoc,
      drop_append_len _ _ (4 + b.name.length) (by simp [pack_i_length])]
  rw [read_int_exact_nat _ _ _ hrem4 (count_lt_of_block_len b hblen)]
  dsimp only
  have htoNat : ((b.header.length : Int)).toNat = b.header.length := by omega
  rw [htoNat]
  have hrem5 : ({ fd with pos := fd.pos + 4 + 4 + (4 + b.name.length) + 4 } :
      RStream).remaining =
      headerBytes b.header ++
      (pack_i ((b.matrix.rows : Nat) : Int) ++
      (pack_i ((b.matrix.cols : Nat) : Int) ++
      (tobytes b.matrix ++
      (pack_i ((BLOCK_END_SEQUENCE : Nat) : Int) ++ post)))) := by
    rw [remaining_at, hrem4, drop_append_len _ _ 4 (pack_i_length _)]
  rw [readHeader_exact b.header _ _ hreadable hrem5]
  dsimp only
  have hrem6 : ({ fd with pos :=
      fd.pos + 4 + 4 + (4 + b.name.length) + 4 + (headerBytes b.header).length } :
      RStream).remaining =
      pack_i ((b.matrix.rows : Nat) : Int) ++
      (pack_i ((b.matrix.cols : Nat) : Int) ++
      (tobytes b.matrix ++
      (pack_i ((BLOCK_END_SEQUENCE : Nat) : Int) ++ post))) := by
    rw [remaining_at, hrem5, drop_append_len _ _ _ rfl]
  rw [read_int_exact_nat _ _ _ hrem6 hrows]
  dsimp only
  have hrem7 : ({ fd with pos :=
      fd.pos + 4 + 4 + (4 + b.name.length) + 4 + (headerBytes b.header).length + 4 } :
      RStream).remaining =
      pack_i ((b.matrix.cols : Nat) : Int) ++
      (tobytes b.matrix ++
      (pack_i ((BLOCK_END_SEQUENCE : Nat) : Int) ++ post)) := by
    rw [remaining_at, hrem6, drop_append_len _ _ 4 (pack_i_length _)]
  rw [read_int_exact_nat _ _ _ hrem7 (by rw [hcols]; exact count_lt_of_block_len b hblen)]
  dsimp only
  rw [if_neg (show ¬ ((b.matrix.cols : Nat) : Int) ≠ (b.header.length : Int)
    from by rw [hcols]; simp)]
  obtain ⟨fmt, hfmt, hfl⟩ := header_to_dtype_ok b.header
    (fun e he => (hvalid e he).2)
  rw [hfmt]
  dsimp only
  have hrem8 : ({ fd with pos :=
      fd.pos + 4 + 4 + (4 + b.name.length) + 4 + (headerBytes b.header).length + 4 + 4 } :
      RStream).remaining =
      tobytes b.matrix ++
      (pack_i ((BLOCK_END_SEQUENCE : Nat) : Int) ++ post) := by
    rw [remaining_at, hrem7, drop_append_len _ _ 4 (pack_i_length _)]
  have hcast : ((b.matrix.rows : Nat) : Int) * ((b.matrix.cols : Nat) : Int) *
      (NUMBER_LEN : Int) =
      ((b.matrix.rows * b.matrix.cols * NUMBER_LEN : Nat) : Int) := by
    push_cast
    ring
  have hplen : (tobytes b.matrix).length =
      b.matrix.rows * b.matrix.cols * NUMBER_LEN := by
    rw [tobytes_length, hdata]
    unfold NUMBER_LEN
    ring
  rw [hcast, read_len _ (tobytes b.matrix) _ _ hrem8 hplen]
  dsimp only
  rw [frombuffer_tobytes b.matrix fmt (by rw [hfl, hcols]) hcpos hdata]
  dsimp only
  have hdiff : (((fd.pos + 4 + 4 + (4 + b.name.length) + 4 +
        (headerBytes b.header).length + 4 + 4 +
        b.matrix.rows * b.matrix.cols * NUMBER_LEN : Nat)) : Int) -
      ((fd.pos + 4 : Nat) : Int) =
      ((_block_len b.name b.header b.matrix : Nat) : Int) := by
    have heq := _block_len_eq b.name b.header b.matrix
    have hp : b.matrix.rows * b.matrix.cols * NUMBER_LEN =
        b.matrix.data.length * 4 := by
      unfold NUMBER_LEN
      rw [hdata]
    rw [heq, hp]
    push_cast
    ring
  have hrem9 : ({ fd with pos :=
      fd.pos + 4 + 4 + (4 + b.name.length) + 4 + (headerBytes b.header).length +
        4 + 4 + b.matrix.rows * b.matrix.cols * NUMBER_LEN } : RStream).remaining =
      pack_i ((BLOCK_END_SEQUENCE : Nat) : Int) ++ post := by
    rw [remaining_at, hrem8, drop_append_len _ _ _ hplen]
  rcases Decidable.em
    (fd.seekable = true ∧ L ≠ _block_len b.name b.header b.matrix) with hcase | hcase
  · have hcond : _tell { fd with pos := fd.pos + 4 } ≥ 0 ∧
        _tell { fd with pos :=
          fd.pos + 4 + 4 + (4 + b.name.length) + 4 + (headerBytes b.header).length +
            4 + 4 + b.matrix.rows * b.matrix.cols * NUMBER_LEN } ≥ 0 ∧
        _tell { fd with pos :=
          fd.pos + 4 + 4 + (4 + b.name.length) + 4 + (headerBytes b.header).length +
            4 + 4 + b.matrix.rows * b.matrix.cols * NUMBER_LEN } -
          _tell { fd with pos := fd.pos + 4 } ≠ ((L : Nat) : Int) := by
      unfold _tell
      rw [if_pos hcase.1, if_pos hcase.1]
      refine ⟨by positivity, by positivity, ?_⟩
      rw [hdiff]
      have := hcase.2
      intro hc
      apply this
      omega
    rw [if_pos hcond, if_pos hcase]
  · have hcond : ¬ (_tell { fd with pos := fd.pos + 4 } ≥ 0 ∧
        _tell { fd with pos :=
          fd.pos + 4 + 4 + (4 + b.name.length) + 4 + (headerBytes b.header).length +
            4 + 4 + b.matrix.rows * b.matrix.cols * NUMBER_LEN } ≥ 0 ∧
        _tell { fd with pos :=
          fd.pos + 4 + 4 + (4 + b.name.length) + 4 + (headerBytes b.header).length +
            4 + 4 + b.matrix.rows * b.matrix.cols * NUMBER_LEN } -
          _tell { fd with pos := fd.pos + 4 } ≠ ((L : Nat) : Int)) := by
      unfold _tell
      cases hsk : fd.seekable with
      | false => simp
      | true =>
        simp only [if_pos rfl, if_true]
        have hLeq : L = _block_len b.name b.header b.matrix := by
          rcases Decidable.em (L = _block_len b.name b.header b.matrix) with h1 | h1
          · exact h1
          · exact absurd ⟨hsk, h1⟩ hcase
        intro hc
        apply hc.2.2
        rw [hdiff, hLeq]
    rw [if_neg hcond]
    rw [read_int_exact_nat _ _ _ hrem9 (by norm_num [BLOCK_END_SEQUENCE])]
    dsimp only
    rw [if_neg (show ¬ ((BLOCK_END_SEQUENCE : Nat) : Int) ≠ (BLOCK_END_SEQUENCE : Int)
      from by simp)]
    rw [if_neg hcase]

/-- On any stream whose unread part starts with the frame bytes that
`serialise` writes for a valid block, the body parser returns exactly
that block, for any cursor position and for seekable and non-seekable
sources alike. -/
theorem deseraliseBody_exact (b : Block) (fd : RStream) (post : List Byte)
    (h : ValidBlock b) (hrem : fd.remaining = frameTail b ++ post) :
    deseraliseBody fd = .ok b := by
  have hblen : _block_len b.name b.header b.matrix < 2 ^ 31 := h.1.2.2.2.2.2
  rw [deseraliseBody_generic b (_block_len b.name b.header b.matrix) fd post h
    hblen hrem]
  rw [if_neg (by intro hc; exact hc.2 rfl)]

/-- Decoding a frame laid out by the writer yields the original block. -/
theorem deseralise_frame (b : Block) (sk : Bool) (h : ValidBlock b) :
    deseralise ⟨frameBytes b, 0, sk⟩ = .ok b := by
  unfold deseralise
  have hrem : (⟨frameBytes b, 0, sk⟩ : RStream).remaining =
      pack_i (BLOCK_START_SEQUENCE : Int) ++ frameTail b := by
    show (frameBytes b).drop 0 = _
    rw [List.drop_zero]
    rfl
  rw [synchronise_frame _ _ hrem]
  apply deseraliseBody_exact b _ [] h
  show (⟨frameBytes b, 0 + 4, sk⟩ : RStream).remaining = _
  rw [remaining_at, hrem, drop_append_len _ _ 4 (pack_i_length _),
    List.append_nil]

/-- Decoding with leading marker-free garbage yields the original
block. -/
theorem deseralise_garbage_frame (g : List Byte) (b : Block) (sk : Bool)
    (hg : scanClean BLOCK_START_SEQUENCE 0 g = true) (h : ValidBlock b) :
    deseralise ⟨g ++ frameBytes b, 0, sk⟩ = .ok b := by
  unfold deseralise
  have hrem : (⟨g ++ frameBytes b, 0, sk⟩ : RStream).remaining =
      g ++ (pack_i (BLOCK_START_SEQUENCE : Int) ++ frameTail b) := by
    show (g ++ frameBytes b).drop 0 = _
    rw [List.drop_zero]
    rfl
  rw [synchronise_garbage _ g (frameTail b) hg hrem]
  apply deseraliseBody_exact b _ [] h
  show (⟨g ++ frameBytes b, 0 + (4 + g.length), sk⟩ : RStream).remaining = _
  rw [remaining_at, hrem,
    show (4 + g.length) = g.length + 4 from by omega,
    ← List.drop_drop, drop_append_len g _ g.length rfl,
    drop_append_len _ _ 4 (pack_i_length _), List.append_nil]

/-! ### Claim theorems -/

/-- Claim C1, counterexample: a block that meets every validity
condition the claim lists (its name is 0 bytes, within the 1024-byte
limit; its single column name is 1 byte; the matrix has 1 column and
there is 1 column spec) serialises without error, yet reading the
produced bytes back does not return the block — the reader raises
end-of-stream on the zero-length name. -/
theorem C1_counterexample :
    emptyNameBlock.name.length ≤ 1024 ∧
    (∀ e ∈ emptyNameBlock.header, e.name.length ≤ 1024) ∧
    emptyNameBlock.matrix.cols = emptyNameBlock.header.length ∧
    (serialiseBlock emptyNameBlock).err = none ∧
    deseralise ⟨(serialiseBlock emptyNameBlock).sink, 0, true⟩ =
      .error .unexpectedEndOfStream := by
  decide

/-- Claim C1, amended: the round trip holds for every valid block whose
block name and column names are additionally nonempty, which has at
least one column, only type tags 0 and 1, and whose fields fit the
signed 32-bit wire format: deserialising the serialised bytes yields a
block equal to the input bit for bit, on seekable and non-seekable
sources alike. -/
theorem C1_round_trip (b : Block) (sk : Bool) (h : ValidBlock b) :
    (serialiseBlock b).err = none ∧
    deseralise ⟨(serialiseBlock b).sink, 0, sk⟩ = .ok b := by
  rw [serialise_ok b h.1]
  exact ⟨rfl, deseralise_frame b sk h⟩

theorem C1_round_trip_witness :
    (serialiseBlock sampleBlock).err = none ∧
    deseralise ⟨(serialiseBlock sampleBlock).sink, 0, true⟩ =
      .ok sampleBlock :=
  C1_round_trip sampleBlock true (by decide)

/-- Claim C2: for every block the writer accepts, it emits exactly, in
order: the 4-byte start marker, the declared length, the block-type tag
1, the length-prefixed name, the column count, per column a
length-prefixed name and its 4-byte type tag, the row count, the column
count again, the raw row-major matrix bytes (rows·cols·4 of them), and
the end marker; the declared length equals
`4 + (4 + len name) + (4 + Σ (4 + len colname + 4)) + (4 + 4 + rows*cols*4)`,
which is exactly the byte count between the length field and the end
marker. -/
theorem C2_wire_layout (b : Block) (h : WritableBlock b) :
    (serialiseBlock b).err = none ∧
    (serialiseBlock b).sink =
      pack_i (BLOCK_START_SEQUENCE : Int) ++
      (pack_i (_block_len b.name b.header b.matrix : Int) ++
      (pack_i (BLOCK_TYPE_MATRIX : Int) ++
      (pack_i (b.name.length : Int) ++
      (b.name ++
      (pack_i (b.header.length : Int) ++
      (headerBytes b.header ++
      (pack_i (b.matrix.rows : Int) ++
      (pack_i (b.matrix.cols : Int) ++
      (tobytes b.matrix ++
      pack_i (BLOCK_END_SEQUENCE : Int)))))))))) ∧
    _block_len b.name b.header b.matrix =
      4 + (4 + b.name.length) +
      (4 + ((b.header.map (fun e => 4 + e.name.length + 4)).sum)) +
      (4 + 4 + b.matrix.rows * b.matrix.cols * 4) ∧
    (tobytes b.matrix).length = b.matrix.rows * b.matrix.cols * 4 ∧
    (serialiseBlock b).sink.length =
      4 + 4 + _block_len b.name b.header b.matrix + 4 := by
  obtain ⟨hname, hheader, hcols, hdata, hrows, hblen⟩ := h
  have hs := serialise_ok b ⟨hname, hheader, hcols, hdata, hrows, hblen⟩
  have hsum : (headerBytes b.header).length =
      (b.header.map (fun e => 4 + e.name.length + 4)).sum := by
    induction b.header with
    | nil => rfl
    | cons e hs ih =>
      show (entryBytes e ++ headerBytes hs).length = _
      simp only [List.length_append, List.map_cons, List.sum_cons, ih,
        entryBytes_length]
  have htob : (tobytes b.matrix).length = b.matrix.rows * b.matrix.cols * 4 := by
    rw [tobytes_length, hdata]
    ring
  refine ⟨by rw [hs], by rw [hs]; rfl, ?_, htob, ?_⟩
  · rw [_block_len_eq, hsum, hdata]
  · rw [hs]
    show (frameBytes b).length = _
    unfold frameBytes frameTail frameTailWithLen
    simp only [List.length_append, pack_i_length, _block_len_eq, htob]
    have := _block_len_eq b.name b.header b.matrix
    omega

theorem C2_wire_layout_witness :
    (serialiseBlock sampleBlock).err = none ∧
    (serialiseBlock sampleBlock).sink =
      pack_i (BLOCK_START_SEQUENCE : Int) ++
      (pack_i (_block_len sampleBlock.name sampleBlock.header sampleBlock.matrix : Int) ++
      (pack_i (BLOCK_TYPE_MATRIX : Int) ++
      (pack_i (sampleBlock.name.length : Int) ++
      (sampleBlock.name ++
      (pack_i (sampleBlock.header.length : Int) ++
      (headerBytes sampleBlock.header ++
      (pack_i (sampleBlock.matrix.rows : Int) ++
      (pack_i (sampleBlock.matrix.cols : Int) ++
      (tobytes sampleBlock.matrix ++
      pack_i (BLOCK_END_SEQUENCE : Int)))))))))) ∧
    _block_len sampleBlock.name sampleBlock.header sampleBlock.matrix =
      4 + (4 + sampleBlock.name.length) +
      (4 + ((sampleBlock.header.map (fun e => 4 + e.name.length + 4)).sum)) +
      (4 + 4 + sampleBlock.matrix.rows * sampleBlock.matrix.cols * 4) ∧
    (tobytes sampleBlock.matrix).length =
      sampleBlock.matrix.rows * sampleBlock.matrix.cols * 4 ∧
    (serialiseBlock sampleBlock).sink.length =
      4 + 4 + _block_len sampleBlock.name sampleBlock.header sampleBlock.matrix + 4 :=
  C2_wire_layout sampleBlock (by decide)

/-- Garbage consisting of partial start-marker sequences: `0x42` and
then `0x42 0x6c 0x63`, the first three marker bytes. -/
def partialMarkerGarbage : List Byte := [0x42, 0x42, 0x6c, 0x63]

/-- Claim C3, counterexample: garbage equal to the full start-marker
byte sequence placed before a valid frame changes the decoded result —
the scanner locks onto the garbage marker, misreads the frame, and
fails with `UnsupportedBlockType` instead of returning the block. -/
theorem C3_counterexample :
    deseralise ⟨pack_i (BLOCK_START_SEQUENCE : Int) ++
        (serialiseBlock sampleBlock).sink, 0, true⟩ =
      .error .unsupportedBlockType ∧
    deseralise ⟨(serialiseBlock sampleBlock).sink, 0, true⟩ =
      .ok sampleBlock ∧
    deseralise ⟨pack_i (BLOCK_START_SEQUENCE : Int) ++
        (serialiseBlock sampleBlock).sink, 0, true⟩ ≠
      deseralise ⟨(serialiseBlock sampleBlock).sink, 0, true⟩ := by
  decide

/-- Claim C3, amended: prefixing garbage bytes before a valid frame
does not change the decoded result, provided the rolling window never
equals the start marker while scanning the garbage (equivalently, the
4-byte start-marker sequence does not occur inside the garbage; partial
or false start markers remain allowed). -/
theorem C3_resync (g : List Byte) (b : Block) (sk : Bool)
    (hg : scanClean BLOCK_START_SEQUENCE 0 g = true) (h : ValidBlock b) :
    deseralise ⟨g ++ (serialiseBlock b).sink, 0, sk⟩ =
      deseralise ⟨(serialiseBlock b).sink, 0, sk⟩ := by
  rw [serialise_ok b h.1]
  show deseralise ⟨g ++ frameBytes b, 0, sk⟩ = deseralise ⟨frameBytes b, 0, sk⟩
  rw [deseralise_garbage_frame g b sk hg h, deseralise_frame b sk h]

theorem C3_resync_witness :
    deseralise ⟨partialMarkerGarbage ++ (serialiseBlock sampleBlock).sink, 0, true⟩ =
      deseralise ⟨(serialiseBlock sampleBlock).sink, 0, true⟩ :=
  C3_resync partialMarkerGarbage sampleBlock true (by decide) (by decide)

/-- Claim C8: the declared-length verification happens if and only if
the source supports position queries.  For a frame whose length field
holds any 32-bit value other than the true length, a seekable source
fails with `FrameLengthMismatch`, while a non-seekable source (where
`_tell` reports -1) skips the verification entirely and decodes the
block without any error. -/
theorem C8_length_check (b : Block) (L : Nat) (h : ValidBlock b)
    (hL : L < 2 ^ 31) (hne : L ≠ _block_len b.name b.header b.matrix) :
    deseralise ⟨pack_i (BLOCK_START_SEQUENCE : Int) ++ frameTailWithLen b L,
        0, true⟩ = .error .frameLengthMismatch ∧
    deseralise ⟨pack_i (BLOCK_START_SEQUENCE : Int) ++ frameTailWithLen b L,
        0, false⟩ = .ok b := by
  have hgen : ∀ sk : Bool,
      deseralise ⟨pack_i (BLOCK_START_SEQUENCE : Int) ++ frameTailWithLen b L,
        0, sk⟩ =
      if sk = true ∧ L ≠ _block_len b.name b.header b.matrix then
        .error .frameLengthMismatch
      else .ok b := by
    intro sk
    unfold deseralise
    have hrem : (⟨pack_i (BLOCK_START_SEQUENCE : Int) ++ frameTailWithLen b L,
        0, sk⟩ : RStream).remaining =
        pack_i (BLOCK_START_SEQUENCE : Int) ++ frameTailWithLen b L := by
      show List.drop 0 _ = _
      rw [List.drop_zero]
    rw [synchronise_frame _ _ hrem]
    dsimp only
    have hrem2 : (⟨pack_i (BLOCK_START_SEQUENCE : Int) ++ frameTailWithLen b L,
        0 + 4, sk⟩ : RStream).remaining = frameTailWithLen b L ++ [] := by
      rw [remaining_at, hrem, drop_append_len _ _ 4 (pack_i_length _),
        List.append_nil]
    rw [deseraliseBody_generic b L _ [] h hL hrem2]
  exact ⟨by rw [hgen true, if_pos ⟨rfl, hne⟩],
    by rw [hgen false, if_neg (by simp)]⟩

/-- Evaluating `serialise` when the matrix column count disagrees with
the header: every field up to and including the per-column header has
already been written when the exception is raised. -/
theorem serialise_mismatch (b : Block) (hname : b.name.length ≤ MAX_STR_SIZE)
    (hheader : headerWritable b.header)
    (hblen : _block_len b.name b.header b.matrix < 2 ^ 31)
    (hne : b.matrix.cols ≠ b.header.length) :
    serialiseBlock b =
      ⟨pack_i (BLOCK_START_SEQUENCE : Int) ++
       (pack_i (_block_len b.name b.header b.matrix : Int) ++
       (pack_i (BLOCK_TYPE_MATRIX : Int) ++
       (pack_i (b.name.length : Int) ++
       (b.name ++
       (pack_i (b.header.length : Int) ++ headerBytes b.header))))),
       some .columnCountMismatch⟩ := by
  unfold serialiseBlock serialise
  rw [write_int_ok_nat BLOCK_START_SEQUENCE (by norm_num [BLOCK_START_SEQUENCE]),
    write_int_ok_nat _ hblen,
    write_int_ok_nat BLOCK_TYPE_MATRIX (by norm_num [BLOCK_TYPE_MATRIX]),
    write_str_ok b.name hname,
    write_int_ok_nat b.header.length (count_lt_of_block_len b hblen),
    writeHeader_ok b.header hheader]
  rw [if_pos hne]
  simp only [wappend_none]
  simp [List.append_assoc]

/-- A write outcome that already failed absorbs any continuation. -/
theorem wappend_err_eq (a b : WOut) (e : Err) (ha : a.err = some e) :
    wappend a b = a := by
  rcases a with ⟨s, oe⟩
  cases oe with
  | none => cases ha
  | some x => rfl

/-- The header loop keeps an error that already occurred. -/
theorem writeHeader_foldl_keep (hs : List HeaderEntry) (a : WOut) (e : Err)
    (ha : a.err = some e) :
    hs.foldl
      (fun acc x => wappend acc (wappend (_write_str x.name) (_write_int x.type)))
      a = a := by
  induction hs generalizing a with
  | nil => rfl
  | cons x hs ih =>
    show List.foldl _ (wappend a _) hs = a
    rw [wappend_err_eq a _ e ha]
    exact ih a ha

/-- The header loop raises `TypeError` (the botched NameTooLong message)
as soon as some column name exceeds the limit. -/
theorem writeHeader_foldl_too_long (hs : List HeaderEntry) (acc : List Byte)
    (htypes : ∀ x ∈ hs, -(2 ^ 31) ≤ x.type ∧ x.type < 2 ^ 31)
    (hbad : ∃ x ∈ hs, MAX_STR_SIZE < x.name.length) :
    (hs.foldl
      (fun acc x => wappend acc (wappend (_write_str x.name) (_write_int x.type)))
      ⟨acc, none⟩).err = some .typeError := by
  induction hs generalizing acc with
  | nil =>
    rcases hbad with ⟨x, hx, _⟩
    cases hx
  | cons x hs ih =>
    rcases Decidable.em (MAX_STR_SIZE < x.name.length) with hx | hx
    · have hw : _write_str x.name = ⟨[], some .typeError⟩ := by
        unfold _write_str
        rw [if_pos (by omega)]
      show (List.foldl _ (wappend ⟨acc, none⟩ (wappend (_write_str x.name) (_write_int x.type))) hs).err = _
      rw [hw, wappend_some, wappend_none]
      rw [writeHeader_foldl_keep hs _ Err.typeError rfl]
    · obtain ⟨ht1, ht2⟩ := htypes x (by simp)
      have hbad2 : ∃ y ∈ hs, MAX_STR_SIZE < y.name.length := by
        rcases hbad with ⟨y, hy, hlong⟩
        rcases List.mem_cons.mp hy with rfl | hy2
        · omega
        · exact ⟨y, hy2, hlong⟩
      show (List.foldl _ (wappend ⟨acc, none⟩ (wappend (_write_str x.name) (_write_int x.type))) hs).err = _
      rw [write_str_ok x.name (by omega), write_int_ok x.type ht1 ht2,
        wappend_none, wappend_none]
      exact ih _ (fun y hy => htypes y (List.mem_cons_of_mem x hy)) hbad2

/-- Claim C10: when the writer fails on a column-count mismatch, the
start marker, declared length, block-type tag, length-prefixed name,
column count and every per-column name and type tag are already in the
sink; the row count, repeated column count, payload and end marker are
missing. -/
theorem C10_partial_write (b : Block) (hname : b.name.length ≤ MAX_STR_SIZE)
    (hheader : headerWritable b.header)
    (hblen : _block_len b.name b.header b.matrix < 2 ^ 31)
    (hne : b.matrix.cols ≠ b.header.length) :
    serialiseBlock b =
      ⟨pack_i (BLOCK_START_SEQUENCE : Int) ++
       (pack_i (_block_len b.name b.header b.matrix : Int) ++
       (pack_i (BLOCK_TYPE_MATRIX : Int) ++
       (pack_i (b.name.length : Int) ++
       (b.name ++
       (pack_i (b.header.length : Int) ++ headerBytes b.header))))),
       some .columnCountMismatch⟩ :=
  serialise_mismatch b hname hheader hblen hne

/-- A block whose matrix says 2 columns but whose header lists one
column spec. -/
def mismatchBlock : Block :=
  { name := [0x73], header := [⟨[0x74], 0⟩],
    matrix := { rows := 1, cols := 2,
                data := [⟨1, by decide⟩, ⟨2, by decide⟩] } }

theorem C10_partial_write_witness :
    serialiseBlock mismatchBlock =
      ⟨pack_i (BLOCK_START_SEQUENCE : Int) ++
       (pack_i (_block_len mismatchBlock.name mismatchBlock.header
          mismatchBlock.matrix : Int) ++
       (pack_i (BLOCK_TYPE_MATRIX : Int) ++
       (pack_i (mismatchBlock.name.length : Int) ++
       (mismatchBlock.name ++
       (pack_i (mismatchBlock.header.length : Int) ++
        headerBytes mismatchBlock.header))))),
       some .columnCountMismatch⟩ :=
  C10_partial_write mismatchBlock (by decide) (by decide) (by decide) (by decide)

/-- Claim C6 (the code diverges from it): a block name longer than 1024
bytes, or any column name longer than 1024 bytes, makes the writer fail
— but with `TypeError`, not the intended NameTooLong exception:
`_write_str` builds its message as
`"String exceeds string size limit of " + MAX_STR_SIZE + " bytes."`,
and in Python 2 concatenating `str` and `int` raises `TypeError` before
the `Exception` is ever constructed. -/
theorem C6_name_too_long (b : Block)
    (hblen : _block_len b.name b.header b.matrix < 2 ^ 31)
    (htypes : ∀ e ∈ b.header, -(2 ^ 31) ≤ e.type ∧ e.type < 2 ^ 31)
    (hlong : MAX_STR_SIZE < b.name.length ∨
      ∃ e ∈ b.header, MAX_STR_SIZE < e.name.length) :
    (serialiseBlock b).err = some .typeError := by
  unfold serialiseBlock serialise
  rw [write_int_ok_nat BLOCK_START_SEQUENCE (by norm_num [BLOCK_START_SEQUENCE]),
    write_int_ok_nat _ hblen,
    write_int_ok_nat BLOCK_TYPE_MATRIX (by norm_num [BLOCK_TYPE_MATRIX])]
  rcases Decidable.em (MAX_STR_SIZE < b.name.length) with hn | hn
  · have hw : _write_str b.name = ⟨[], some .typeError⟩ := by
      unfold _write_str
      rw [if_pos (by omega)]
    rw [hw, wappend_some]
    simp only [wappend_none]
  · have hbad : ∃ e ∈ b.header, MAX_STR_SIZE < e.name.length := by
      rcases hlong with h1 | h1
      · omega
      · exact h1
    rw [write_str_ok b.name (by omega),
      write_int_ok_nat b.header.length (count_lt_of_block_len b hblen)]
    have hwh : (writeHeader b.header).err = some .typeError :=
      writeHeader_foldl_too_long b.header [] htypes hbad
    rcases hweq : writeHeader b.header with ⟨ws, we⟩
    rw [hweq] at hwh
    simp only at hwh
    rw [hwh]
    rw [wappend_err_eq ⟨ws, some Err.typeError⟩ _ Err.typeError rfl]
    simp only [wappend_none]

/-- A block whose name is 1025 bytes of `a`. -/
def longNameBlock : Block :=
  { name := List.replicate 1025 0x61, header := [],
    matrix := { rows := 0, cols := 0, data := [] } }

set_option maxRecDepth 16384 in
theorem C6_name_too_long_witness :
    (serialiseBlock longNameBlock).err = some .typeError :=
  C6_name_too_long longNameBlock (by decide) (by decide)
    (Or.inl (by decide))

/-- Parsing a frame whose repeated column count disagrees with the
number of column specs in the header stops with the column-count
mismatch, whatever bytes follow. -/
theorem deseraliseBody_cols_mismatch (L : Nat) (nm : List Byte)
    (hs : List HeaderEntry) (rows cols' : Nat) (junk : List Byte)
    (fd : RStream) (hL : L < 2 ^ 31) (hname : nm ≠ [])
    (hnlen : nm.length < 2 ^ 31) (hread : headerReadable hs)
    (hcount : hs.length < 2 ^ 31) (hrows : rows < 2 ^ 31)
    (hcols : cols' < 2 ^ 31) (hne : cols' ≠ hs.length)
    (hrem : fd.remaining =
      pack_i ((L : Nat) : Int) ++ (pack_i ((BLOCK_TYPE_MATRIX : Nat) : Int) ++
      (pack_i (nm.length : Int) ++ (nm ++
      (pack_i (hs.length : Int) ++ (headerBytes hs ++
      (pack_i ((rows : Nat) : Int) ++ (pack_i ((cols' : Nat) : Int) ++
        junk)))))))) :
    deseraliseBody fd = .error .columnCountMismatch := by
  unfold deseraliseBody
  rw [read_int_exact_nat fd _ _ hrem hL]
  dsimp only
  have hrem2 : ({ fd with pos := fd.pos + 4 } : RStream).remaining =
      pack_i ((BLOCK_TYPE_MATRIX : Nat) : Int) ++
      (pack_i (nm.length : Int) ++ (nm ++
      (pack_i (hs.length : Int) ++ (headerBytes hs ++
      (pack_i ((rows : Nat) : Int) ++ (pack_i ((cols' : Nat) : Int) ++
        junk)))))) := by
    rw [remaining_at, hrem, drop_append_len _ _ 4 (pack_i_length _)]
  rw [read_int_exact_nat _ _ _ hrem2 (by norm_num [BLOCK_TYPE_MATRIX])]
  dsimp only
  rw [if_neg (show ¬ ((BLOCK_TYPE_MATRIX : Nat) : Int) ≠ (BLOCK_TYPE_MATRIX : Int)
    from by simp)]
  have hrem3 : ({ fd with pos := fd.pos + 4 + 4 } : RStream).remaining =
      pack_i (nm.length : Int) ++ (nm ++
      (pack_i (hs.length : Int) ++ (headerBytes hs ++
      (pack_i ((rows : Nat) : Int) ++ (pack_i ((cols' : Nat) : Int) ++
        junk))))) := by
    rw [remaining_at, hrem2, drop_append_len _ _ 4 (pack_i_length _)]
  rw [read_str_exact _ nm _ hrem3 hname hnlen]
  dsimp only
  have hrem4 : ({ fd with pos := fd.pos + 4 + 4 + (4 + nm.length) } :
      RStream).remaining =
      pack_i (hs.length : Int) ++ (headerBytes hs ++
      (pack_i ((rows : Nat) : Int) ++ (pack_i ((cols' : Nat) : Int) ++
        junk))) := by
    rw [remaining_at, hrem3, ← List.append_assoc,
      drop_append_len _ _ (4 + nm.length) (by simp [pack_i_length])]
  rw [read_int_exact_nat _ _ _ hrem4 hcount]
  dsimp only
  have htoNat : ((hs.length : Int)).toNat = hs.length := by omega
  rw [htoNat]
  have hrem5 : ({ fd with pos := fd.pos + 4 + 4 + (4 + nm.length) + 4 } :
      RStream).remaining =
      headerBytes hs ++
      (pack_i ((rows : Nat) : Int) ++ (pack_i ((cols' : Nat) : Int) ++
        junk)) := by
    rw [remaining_at, hrem4, drop_append_len _ _ 4 (pack_i_length _)]
  rw [readHeader_exact hs _ _ hread hrem5]
  dsimp only
  have hrem6 : ({ fd with pos :=
      fd.pos + 4 + 4 + (4 + nm.length) + 4 + (headerBytes hs).length } :
      RStream).remaining =
      pack_i ((rows : Nat) : Int) ++ (pack_i ((cols' : Nat) : Int) ++ junk) := by
    rw [remaining_at, hrem5, drop_append_len _ _ _ rfl]
  rw [read_int_exact_nat _ _ _ hrem6 hrows]
  dsimp only
  have hrem7 : ({ fd with pos :=
      fd.pos + 4 + 4 + (4 + nm.length) + 4 + (headerBytes hs).length + 4 } :
      RStream).remaining =
      pack_i ((cols' : Nat) : Int) ++ junk := by
    rw [remaining_at, hrem6, drop_append_len _ _ 4 (pack_i_length _)]
  rw [read_int_exact_nat _ _ _ hrem7 hcols]
  dsimp only
  rw [if_pos (show ((cols' : Nat) : Int) ≠ ((hs.length : Nat) : Int) from
    by exact_mod_cast hne)]

/-- A header containing an unresolvable type tag makes `header_to_dtype`
raise (modelled as `none`). -/
theorem header_to_dtype_none (hs : List HeaderEntry)
    (h : ∃ e ∈ hs, TYPE_MAP e.type = none) :
    header_to_dtype hs = none := by
  induction hs with
  | nil =>
    rcases h with ⟨e, he, _⟩
    cases he
  | cons e hs ih =>
    unfold header_to_dtype at ih ⊢
    rw [List.mapM_cons]
    rcases h with ⟨x, hx, hbad⟩
    rcases List.mem_cons.mp hx with rfl | hx2
    · rw [hbad]
      rfl
    · cases hmap : TYPE_MAP e.type with
      | none => rfl
      | some t =>
        rw [ih ⟨x, hx2, hbad⟩]
        rfl

/-- Parsing a frame whose header carries an unresolvable type tag (and a
consistent column count) fails with the unknown-column-type error — but
only after the row and column counts have been read and checked. -/
theorem deseraliseBody_unknown_tag (L : Nat) (nm : List Byte)
    (hs : List HeaderEntry) (rows : Nat) (junk : List Byte)
    (fd : RStream) (hL : L < 2 ^ 31) (hname : nm ≠ [])
    (hnlen : nm.length < 2 ^ 31) (hread : headerReadable hs)
    (hcount : hs.length < 2 ^ 31) (hrows : rows < 2 ^ 31)
    (hbad : ∃ e ∈ hs, TYPE_MAP e.type = none)
    (hrem : fd.remaining =
      pack_i ((L : Nat) : Int) ++ (pack_i ((BLOCK_TYPE_MATRIX : Nat) : Int) ++
      (pack_i (nm.length : Int) ++ (nm ++
      (pack_i (hs.length : Int) ++ (headerBytes hs ++
      (pack_i ((rows : Nat) : Int) ++ (pack_i ((hs.length : Nat) : Int) ++
        junk)))))))) :
    deseraliseBody fd = .error .unknownColumnType := by
  unfold deseraliseBody
  rw [read_int_exact_nat fd _ _ hrem hL]
  dsimp only
  have hrem2 : ({ fd with pos := fd.pos + 4 } : RStream).remaining =
      pack_i ((BLOCK_TYPE_MATRIX : Nat) : Int) ++
      (pack_i (nm.length : Int) ++ (nm ++
      (pack_i (hs.length : Int) ++ (headerBytes hs ++
      (pack_i ((rows : Nat) : Int) ++ (pack_i ((hs.length : Nat) : Int) ++
        junk)))))) := by
    rw [remaining_at, hrem, drop_append_len _ _ 4 (pack_i_length _)]
  rw [read_int_exact_nat _ _ _ hrem2 (by norm_num [BLOCK_TYPE_MATRIX])]
  dsimp only
  rw [if_neg (show ¬ ((BLOCK_TYPE_MATRIX : Nat) : Int) ≠ (BLOCK_TYPE_MATRIX : Int)
    from by simp)]
  have hrem3 : ({ fd with pos := fd.pos + 4 + 4 } : RStream).remaining =
      pack_i (nm.length : Int) ++ (nm ++
      (pack_i (hs.length : Int) ++ (headerBytes hs ++
      (pack_i ((rows : Nat) : Int) ++ (pack_i ((hs.length : Nat) : Int) ++
        junk))))) := by
    rw [remaining_at, hrem2, drop_append_len _ _ 4 (pack_i_length _)]
  rw [read_str_exact _ nm _ hrem3 hname hnlen]
  dsimp only
  have hrem4 : ({ fd with pos := fd.pos + 4 + 4 + (4 + nm.length) } :
      RStream).remaining =
      pack_i (hs.length : Int) ++ (headerBytes hs ++
      (pack_i ((rows : Nat) : Int) ++ (pack_i ((hs.length : Nat) : Int) ++
        junk))) := by
    rw [remaining_at, hrem3, ← List.append_assoc,
      drop_append_len _ _ (4 + nm.length) (by simp [pack_i_length])]
  rw [read_int_exact_nat _ _ _ hrem4 hcount]
  dsimp only
  have htoNat : ((hs.length : Int)).toNat = hs.length := by omega
  rw [htoNat]
  have hrem5 : ({ fd with pos := fd.pos + 4 + 4 + (4 + nm.length) + 4 } :
      RStream).remaining =
      headerBytes hs ++
      (pack_i ((rows : Nat) : Int) ++ (pack_i ((hs.length : Nat) : Int) ++
        junk)) := by
    rw [remaining_at, hrem4, drop_append_len _ _ 4 (pack_i_length _)]
  rw [readHeader_exact hs _ _ hread hrem5]
  dsimp only
  have hrem6 : ({ fd with pos :=
      fd.pos + 4 + 4 + (4 + nm.length) + 4 + (headerBytes hs).length } :
      RStream).remaining =
      pack_i ((rows : Nat) : Int) ++ (pack_i ((hs.length : Nat) : Int) ++ junk) := by
    rw [remaining_at, hrem5, drop_append_len _ _ _ rfl]
  rw [read_int_exact_nat _ _ _ hrem6 hrows]
  dsimp only
  have hrem7 : ({ fd with pos :=
      fd.pos + 4 + 4 + (4 + nm.length) + 4 + (headerBytes hs).length + 4 } :
      RStream).remaining =
      pack_i ((hs.length : Nat) : Int) ++ junk := by
    rw [remaining_at, hrem6, drop_append_len _ _ 4 (pack_i_length _)]
  rw [read_int_exact_nat _ _ _ hrem7 hcount]
  dsimp only
  rw [if_neg (show ¬ ((hs.length : Nat) : Int) ≠ ((hs.length : Nat) : Int)
    from by simp)]
  rw [header_to_dtype_none hs hbad]

/-- Claim C5: the writer fails with the column-count mismatch whenever
the matrix column count differs from the number of column specs (the
other writer preconditions being met), and the reader fails the same
way whenever the column count declared after the row count differs from
the number of column specs read from the header. -/
theorem C5_shape_validation :
    (∀ b : Block, b.name.length ≤ MAX_STR_SIZE → headerWritable b.header →
      _block_len b.name b.header b.matrix < 2 ^ 31 →
      b.matrix.cols ≠ b.header.length →
      (serialiseBlock b).err = some .columnCountMismatch) ∧
    (∀ (L : Nat) (nm : List Byte) (hs : List HeaderEntry)
      (rows cols' : Nat) (junk : List Byte) (sk : Bool),
      L < 2 ^ 31 → nm ≠ [] → nm.length < 2 ^ 31 → headerReadable hs →
      hs.length < 2 ^ 31 → rows < 2 ^ 31 → cols' < 2 ^ 31 →
      cols' ≠ hs.length →
      deseralise ⟨pack_i (BLOCK_START_SEQUENCE : Int) ++
        (pack_i ((L : Nat) : Int) ++ (pack_i ((BLOCK_TYPE_MATRIX : Nat) : Int) ++
        (pack_i (nm.length : Int) ++ (nm ++
        (pack_i (hs.length : Int) ++ (headerBytes hs ++
        (pack_i ((rows : Nat) : Int) ++ (pack_i ((cols' : Nat) : Int) ++
          junk)))))))), 0, sk⟩ = .error .columnCountMismatch) := by
  constructor
  · intro b hname hheader hblen hne
    rw [serialise_mismatch b hname hheader hblen hne]
  · intro L nm hs rows cols' junk sk hL hname hnlen hread hcount hrows hcols hne
    unfold deseralise
    have hrem : (⟨pack_i (BLOCK_START_SEQUENCE : Int) ++
        (pack_i ((L : Nat) : Int) ++ (pack_i ((BLOCK_TYPE_MATRIX : Nat) : Int) ++
        (pack_i (nm.length : Int) ++ (nm ++
        (pack_i (hs.length : Int) ++ (headerBytes hs ++
        (pack_i ((rows : Nat) : Int) ++ (pack_i ((cols' : Nat) : Int) ++
          junk)))))))), 0, sk⟩ : RStream).remaining =
        pack_i (BLOCK_START_SEQUENCE : Int) ++
        (pack_i ((L : Nat) : Int) ++ (pack_i ((BLOCK_TYPE_MATRIX : Nat) : Int) ++
        (pack_i (nm.length : Int) ++ (nm ++
        (pack_i (hs.length : Int) ++ (headerBytes hs ++
        (pack_i ((rows : Nat) : Int) ++ (pack_i ((cols' : Nat) : Int) ++
          junk)))))))) := by
      show List.drop 0 _ = _
      rw [List.drop_zero]
    rw [synchronise_frame _ _ hrem]
    dsimp only
    apply deseraliseBody_cols_mismatch L nm hs rows cols' junk _ hL hname hnlen
      hread hcount hrows hcols hne
    rw [remaining_at, hrem, drop_append_len _ _ 4 (pack_i_length _)]

theorem C5_shape_validation_witness :
    (serialiseBlock mismatchBlock).err = some .columnCountMismatch ∧
    deseralise ⟨pack_i (BLOCK_START_SEQUENCE : Int) ++
      (pack_i ((50 : Nat) : Int) ++ (pack_i ((BLOCK_TYPE_MATRIX : Nat) : Int) ++
      (pack_i (([0x6e] : List Byte).length : Int) ++ (([0x6e] : List Byte) ++
      (pack_i (([⟨[0x63], 0⟩] : List HeaderEntry).length : Int) ++
      (headerBytes [⟨[0x63], 0⟩] ++
      (pack_i (((1 : Nat) : Nat) : Int) ++ (pack_i (((2 : Nat) : Nat) : Int) ++
        ([] : List Byte))))))))), 0, true⟩ = .error .columnCountMismatch :=
  ⟨C5_shape_validation.1 mismatchBlock (by decide) (by decide) (by decide)
      (by decide),
    C5_shape_validation.2 50 [0x6e] [⟨[0x63], 0⟩] 1 2 [] true (by decide)
      (by decide) (by decide) (by decide) (by decide) (by decide) (by decide)
      (by decide)⟩

/-- Claim C7, counterexample: a wire prefix whose single column carries
the unknown type tag 7 but which ends right after the column header
makes the reader fail with `UnexpectedEndOfStream` (while reading the
row count), not with `UnknownColumnType` — so tag resolution does not
happen in Step 5, before the row/column counts are read. -/
theorem C7_counterexample :
    TYPE_MAP 7 = none ∧
    deseralise ⟨unknownTagTruncated, 0, true⟩ =
      .error .unexpectedEndOfStream ∧
    Err.unexpectedEndOfStream ≠ Err.unknownColumnType := by
  decide

/-- Claim C7, amended: the reader resolves each column's type tag via
the type map and fails with `UnknownColumnType` when some tag is
neither 0 nor 1 — but only after Step 6 has read the row and column
counts and the column-count check has passed. -/
theorem C7_unknown_tag (L : Nat) (nm : List Byte) (hs : List HeaderEntry)
    (rows : Nat) (junk : List Byte) (sk : Bool)
    (hL : L < 2 ^ 31) (hname : nm ≠ []) (hnlen : nm.length < 2 ^ 31)
    (hread : headerReadable hs) (hcount : hs.length < 2 ^ 31)
    (hrows : rows < 2 ^ 31)
    (hbad : ∃ e ∈ hs, TYPE_MAP e.type = none) :
    deseralise ⟨pack_i (BLOCK_START_SEQUENCE : Int) ++
      (pack_i ((L : Nat) : Int) ++ (pack_i ((BLOCK_TYPE_MATRIX : Nat) : Int) ++
      (pack_i (nm.length : Int) ++ (nm ++
      (pack_i (hs.length : Int) ++ (headerBytes hs ++
      (pack_i ((rows : Nat) : Int) ++ (pack_i ((hs.length : Nat) : Int) ++
        junk)))))))), 0, sk⟩ = .error .unknownColumnType := by
  unfold deseralise
  have hrem : (⟨pack_i (BLOCK_START_SEQUENCE : Int) ++
      (pack_i ((L : Nat) : Int) ++ (pack_i ((BLOCK_TYPE_MATRIX : Nat) : Int) ++
      (pack_i (nm.length : Int) ++ (nm ++
      (pack_i (hs.length : Int) ++ (headerBytes hs ++
      (pack_i ((rows : Nat) : Int) ++ (pack_i ((hs.length : Nat) : Int) ++
        junk)))))))), 0, sk⟩ : RStream).remaining =
      pack_i (BLOCK_START_SEQUENCE : Int) ++
      (pack_i ((L : Nat) : Int) ++ (pack_i ((BLOCK_TYPE_MATRIX : Nat) : Int) ++
      (pack_i (nm.length : Int) ++ (nm ++
      (pack_i (hs.length : Int) ++ (headerBytes hs ++
      (pack_i ((rows : Nat) : Int) ++ (pack_i ((hs.length : Nat) : Int) ++
        junk)))))))) := by
    show List.drop 0 _ = _
    rw [List.drop_zero]
  rw [synchronise_frame _ _ hrem]
  dsimp only
  apply deseraliseBody_unknown_tag L nm hs rows junk _ hL hname hnlen hread
    hcount hrows hbad
  rw [remaining_at, hrem, drop_append_len _ _ 4 (pack_i_length _)]

theorem C7_unknown_tag_witness :
    deseralise ⟨pack_i (BLOCK_START_SEQUENCE : Int) ++
      (pack_i ((100 : Nat) : Int) ++ (pack_i ((BLOCK_TYPE_MATRIX : Nat) : Int) ++
      (pack_i (([0x6e] : List Byte).length : Int) ++ (([0x6e] : List Byte) ++
      (pack_i (([⟨[0x63], 7⟩] : List HeaderEntry).length : Int) ++
      (headerBytes [⟨[0x63], 7⟩] ++
      (pack_i (((2 : Nat) : Nat) : Int) ++
      (pack_i ((([⟨[0x63], 7⟩] : List HeaderEntry).length : Nat) : Int) ++
        ([] : List Byte))))))))), 0, true⟩ = .error .unknownColumnType :=
  C7_unknown_tag 100 [0x6e] [⟨[0x63], 7⟩] 2 [] true (by decide) (by decide)
    (by decide) (by decide) (by decide) (by decide)
    ⟨⟨[0x63], 7⟩, by decide, by decide⟩

/-- Claim C4, counterexample: truncating a valid frame at byte offset 5
(inside the declared-length field, one byte after the start marker)
makes the reader fail with `struct.error` — `fd.read(4)` returns one
byte, which is truthy, so the explicit end-of-stream check is passed
and `struct.unpack` raises — not with `UnexpectedEndOfStream`. -/
theorem C4_counterexample :
    (serialiseBlock sampleBlock).err = none ∧
    5 + 4 < (serialiseBlock sampleBlock).sink.length ∧
    deseralise ⟨((serialiseBlock sampleBlock).sink).take 5, 0, true⟩ =
      .error .structError ∧
    Err.structError ≠ Err.unexpectedEndOfStream := by
  decide

/-! ### Truncated reads -/

theorem take_append_short {α : Type} (xs ys : List α) (j : Nat)
    (h : j ≤ xs.length) : (xs ++ ys).take j = xs.take j := by
  rw [List.take_append_eq_append_take, Nat.sub_eq_zero_of_le h,
    List.take_zero, List.append_nil]

theorem take_append_long {α : Type} (xs ys : List α) (j : Nat)
    (h : xs.length ≤ j) : (xs ++ ys).take j = xs ++ ys.take (j - xs.length) := by
  rw [List.take_append_eq_append_take, List.take_of_length_le h]

/-- `_read_int` when fewer than 4 bytes remain: an empty read raises
end-of-stream, a partial one raises `struct.error`. -/
theorem read_int_trunc (fd : RStream) (h : fd.remaining.length < 4) :
    _read_int fd = .error
      (if fd.remaining.length = 0 then Err.unexpectedEndOfStream
       else Err.structError) := by
  unfold _read_int
  rw [(read_short fd 4 (by norm_num) (by simpa)).1]
  dsimp only
  rcases Decidable.em (fd.remaining.length = 0) with h0 | h0
  · rw [if_pos h0, if_pos h0]
  · rw [if_neg h0, if_neg h0, if_neg (by omega)]

theorem read_int_empty (fd : RStream) (h : fd.remaining = []) :
    _read_int fd = .error .unexpectedEndOfStream := by
  have h0 : fd.remaining.length = 0 := by rw [h]; rfl
  rw [read_int_trunc fd (by omega), if_pos h0]

/-- `_read_str` when fewer than 4 bytes remain for the length field. -/
theorem read_str_trunc_int (fd : RStream) (h : fd.remaining.length < 4) :
    _read_str fd = .error
      (if fd.remaining.length = 0 then Err.unexpectedEndOfStream
       else Err.structError) := by
  unfold _read_str
  rw [read_int_trunc fd h]

/-- `_read_str` when the length field is intact but only `j` of the
declared `s.length` string bytes remain: an empty read raises
end-of-stream; a non-empty short read is returned silently, leaving the
stream exhausted. -/
theorem read_str_trunc (fd : RStream) (s : List Byte) (j : Nat)
    (hlen : s.length < 2 ^ 31) (hj : j < s.length)
    (hrem : fd.remaining = pack_i (s.length : Int) ++ s.take j) :
    _read_str fd = .error .unexpectedEndOfStream ∨
    ∃ t fd', _read_str fd = .ok (t, fd') ∧ fd'.remaining = [] := by
  unfold _read_str
  rw [read_int_exact_nat fd s.length (s.take j) hrem hlen]
  dsimp only
  have hrem1 : ({ fd with pos := fd.pos + 4 } : RStream).remaining = s.take j := by
    rw [remaining_advance, hrem, drop_append_len _ _ 4 (pack_i_length _)]
  have hlt : (({ fd with pos := fd.pos + 4 } : RStream).remaining).length <
      ((s.length : Int)).toNat := by
    rw [hrem1]
    simp only [List.length_take]
    omega
  have hshort := read_short { fd with pos := fd.pos + 4 } (s.length : Int)
    (by omega) hlt
  rw [hshort.1]
  dsimp only
  rcases Decidable.em (j = 0) with hj0 | hj0
  · left
    rw [if_pos (by rw [hrem1, hj0]; rfl)]
  · right
    refine ⟨({ fd with pos := fd.pos + 4 } : RStream).remaining,
      { fd with pos := (fd.pos + 4) +
        (({ fd with pos := fd.pos + 4 } : RStream).remaining).length }, ?_, ?_⟩
    · exact if_neg (by rw [hrem1]; simp only [List.length_take]; omega)
    · exact hshort.2

/-- The scan cannot match inside fewer than four bytes starting from
window state 0: the marker has no zero bytes in its low positions. -/
theorem syncAux_short (bs : List Byte) (h : bs.length ≤ 3) :
    syncAux BLOCK_START_SEQUENCE 0 bs = none := by
  have hM : BLOCK_START_SEQUENCE = 1264806978 := rfl
  match bs with
  | [] => rfl
  | [a] =>
    have ha := a.isLt
    have e1 := syncStep_eq 0 a (by norm_num)
    show (if syncStep 0 a = BLOCK_START_SEQUENCE then some 1 else _) = none
    rw [if_neg (by rw [e1, hM]; omega)]
    rfl
  | [a, b] =>
    have ha := a.isLt
    have hb := b.isLt
    have e1 := syncStep_eq 0 a (by norm_num)
    have l1 := syncStep_lt 0 a (by norm_num)
    have e2 := syncStep_eq (syncStep 0 a) b l1
    show (if syncStep 0 a = BLOCK_START_SEQUENCE then some 1 else _) = none
    rw [if_neg (by rw [e1, hM]; omega)]
    show Option.map _ (if syncStep (syncStep 0 a) b = BLOCK_START_SEQUENCE
      then some 1 else _) = none
    rw [if_neg (by rw [e2, e1, hM]; omega)]
    rfl
  | [a, b, c] =>
    have ha := a.isLt
    have hb := b.isLt
    have hc := c.isLt
    have e1 := syncStep_eq 0 a (by norm_num)
    have l1 := syncStep_lt 0 a (by norm_num)
    have e2 := syncStep_eq (syncStep 0 a) b l1
    have l2 := syncStep_lt (syncStep 0 a) b l1
    have e3 := syncStep_eq (syncStep (syncStep 0 a) b) c l2
    show (if syncStep 0 a = BLOCK_START_SEQUENCE then some 1 else _) = none
    rw [if_neg (by rw [e1, hM]; omega)]
    show Option.map _ (if syncStep (syncStep 0 a) b = BLOCK_START_SEQUENCE
      then some 1 else _) = none
    rw [if_neg (by rw [e2, e1, hM]; omega)]
    show Option.map _ (Option.map _
      (if syncStep (syncStep (syncStep 0 a) b) c = BLOCK_START_SEQUENCE
        then some 1 else _)) = none
    rw [if_neg (by rw [e3, e2, e1, hM]; omega)]
    rfl
  | a :: b :: c :: d :: rest => simp at h

/-- The header loop on a truncated stream always fails: a cut inside a
4-byte field raises end-of-stream or `struct.error`, and a cut inside a
name returns a silently short string after which the stream is
exhausted, making the following read raise end-of-stream. -/
theorem readHeader_trunc (hs : List HeaderEntry) (fd : RStream) (j : Nat)
    (hread : headerReadable hs) (hj : j < (headerBytes hs).length)
    (hrem : fd.remaining = (headerBytes hs).take j) :
    ∃ e, readHeader hs.length fd = .error e := by
  induction hs generalizing fd j with
  | nil => simp [headerBytes] at hj
  | cons en hs ih =>
    obtain ⟨hne, hlen, ht1, ht2⟩ := hread en (by simp)
    have hHB : headerBytes (en :: hs) =
        pack_i (en.name.length : Int) ++
          (en.name ++ (pack_i en.type ++ headerBytes hs)) := by
      simp [headerBytes, entryBytes]
    have hHBlen : (headerBytes (en :: hs)).length =
        4 + en.name.length + 4 + (headerBytes hs).length := by
      rw [hHB]
      simp [pack_i_length]
      omega
    show ∃ e, readHeader (hs.length + 1) fd = .error e
    unfold readHeader
    rcases lt_or_ge j 4 with h4 | h4
    · have hr : fd.remaining = (pack_i (en.name.length : Int)).take j := by
        rw [hrem, hHB, take_append_short _ _ j (by rw [pack_i_length]; omega)]
      have hl : fd.remaining.length < 4 := by
        rw [hr]
        simp only [List.length_take, pack_i_length]
        omega
      rw [read_str_trunc_int fd hl]
      exact ⟨_, rfl⟩
    · rcases lt_or_ge j (4 + en.name.length) with hn4 | hn4
      · have hr : fd.remaining =
            pack_i (en.name.length : Int) ++ en.name.take (j - 4) := by
          rw [hrem, hHB, take_append_long _ _ j (by rw [pack_i_length]; omega),
            pack_i_length, take_append_short _ _ (j - 4) (by omega)]
        rcases read_str_trunc fd en.name (j - 4) hlen (by omega) hr with
          hcase | ⟨t, fd', hok, hemp⟩
        · rw [hcase]
          exact ⟨_, rfl⟩
        · rw [hok]
          dsimp only
          rw [read_int_empty fd' hemp]
          exact ⟨_, rfl⟩
      · rcases lt_or_ge j (4 + en.name.length + 4) with ht4 | ht4
        · have hr : fd.remaining = pack_i (en.name.length : Int) ++
              (en.name ++ (pack_i en.type).take (j - 4 - en.name.length)) := by
            rw [hrem, hHB, take_append_long _ _ j (by rw [pack_i_length]; omega),
              pack_i_length, take_append_long _ _ (j - 4) (by omega),
              take_append_short _ _ _ (by rw [pack_i_length]; omega)]
          rw [read_str_exact fd en.name _ hr hne hlen]
          dsimp only
          have hr2 : ({ fd with pos := fd.pos + (4 + en.name.length) } :
              RStream).remaining =
              (pack_i en.type).take (j - 4 - en.name.length) := by
            rw [remaining_advance, hr, ← List.append_assoc,
              drop_append_len _ _ _ (by simp [pack_i_length])]
          have hl2 : (({ fd with pos := fd.pos + (4 + en.name.length) } :
              RStream).remaining).length < 4 := by
            rw [hr2]
            simp only [List.length_take, pack_i_length]
            omega
          rw [read_int_trunc _ hl2]
          exact ⟨_, rfl⟩
        · have hr : fd.remaining = pack_i (en.name.length : Int) ++
              (en.name ++ (pack_i en.type ++
                (headerBytes hs).take (j - 4 - en.name.length - 4))) := by
            rw [hrem, hHB, take_append_long _ _ j (by rw [pack_i_length]; omega),
              pack_i_length, take_append_long _ _ (j - 4) (by omega),
              take_append_long _ _ _ (by rw [pack_i_length]; omega),
              pack_i_length]
          rw [read_str_exact fd en.name _ hr hne hlen]
          dsimp only
          have hr2 : ({ fd with pos := fd.pos + (4 + en.name.length) } :
              RStream).remaining = pack_i en.type ++
              (headerBytes hs).take (j - 4 - en.name.length - 4) := by
            rw [remaining_advance, hr, ← List.append_assoc,
              drop_append_len _ _ _ (by simp [pack_i_length])]
          rw [read_int_exact _ en.type _ hr2 ht1 ht2]
          dsimp only
          have hr3 : ({ fd with pos := fd.pos + (4 + en.name.length) + 4 } :
              RStream).remaining =
              (headerBytes hs).take (j - 4 - en.name.length - 4) := by
            rw [remaining_at, hr2, drop_append_len _ _ 4 (pack_i_length _)]
          have hj3 : j - 4 - en.name.length - 4 < (headerBytes hs).length := by
            omega
          obtain ⟨e, he⟩ := ih _ _
            (fun x hx => hread x (List.mem_cons_of_mem en hx)) hj3 hr3
          rw [he]
          exact ⟨_, rfl⟩

/-- `np.frombuffer` on an arbitrary buffer with a nonempty dtype either
raises `ValueError` or returns some array. -/
theorem frombuffer_cases (buf : List Byte) (fmt : List (List Byte × String))
    (hfmt : fmt.length ≠ 0) :
    frombuffer buf fmt = .error .valueError ∨
    ∃ m, frombuffer buf fmt = .ok m := by
  unfold frombuffer
  dsimp only
  rw [if_neg (show ¬ NUMBER_LEN * fmt.length = 0 from by
    unfold NUMBER_LEN; omega)]
  rcases Decidable.em (buf.length % (NUMBER_LEN * fmt.length) ≠ 0) with hc | hc
  · left
    rw [if_pos hc]
  · right
    exact ⟨_, by rw [if_neg hc]⟩

theorem frameTail_length (b : Block) :
    (frameTail b).length = 28 + b.name.length + (headerBytes b.header).length +
      (tobytes b.matrix).length := by
  unfold frameTail frameTailWithLen
  simp [pack_i_length]
  omega

/-- Parsing any strict truncation of a valid frame tail that ends before
the end marker fails with some error. -/
theorem deseraliseBody_truncated (b : Block) (fd : RStream) (j : Nat)
    (h : ValidBlock b) (hj : j + 4 < (frameTail b).length)
    (hrem : fd.remaining = (frameTail b).take j) :
    ∃ e, deseraliseBody fd = .error e := by
  obtain ⟨⟨hname, hheader, hcols, hdata, hrows, hblen⟩, hne, hcpos, hvalid⟩ := h
  have hreadable : headerReadable b.header := by
    intro e he
    obtain ⟨h1, h2⟩ := hvalid e he
    obtain ⟨h3, h4, h5⟩ := hheader e he
    refine ⟨h1, by unfold MAX_STR_SIZE at h3; omega, h4, h5⟩
  have hnlen : b.name.length < 2 ^ 31 := by unfold MAX_STR_SIZE at hname; omega
  have hcount := count_lt_of_block_len b hblen
  have hplen : (tobytes b.matrix).length =
      b.matrix.rows * b.matrix.cols * NUMBER_LEN := by
    rw [tobytes_length, hdata]
    unfold NUMBER_LEN
    ring
  have hTlen := frameTail_length b
  have hremT : fd.remaining =
      (pack_i ((_block_len b.name b.header b.matrix : Nat) : Int) ++
      (pack_i ((BLOCK_TYPE_MATRIX : Nat) : Int) ++
      (pack_i (b.name.length : Int) ++
      (b.name ++
      (pack_i (b.header.length : Int) ++
      (headerBytes b.header ++
      (pack_i ((b.matrix.rows : Nat) : Int) ++
      (pack_i ((b.matrix.cols : Nat) : Int) ++
      (tobytes b.matrix ++
      pack_i ((BLOCK_END_SEQUENCE : Nat) : Int)))))))))).take j := by
    rw [hrem]
    rfl
  unfold deseraliseBody
  rcases lt_or_ge j 4 with hr1 | hr1
  · have hr : fd.remaining =
        (pack_i ((_block_len b.name b.header b.matrix : Nat) : Int)).take j := by
      rw [hremT, take_append_short _ _ j (by rw [pack_i_length]; omega)]
    have hl : fd.remaining.length < 4 := by
      rw [hr]
      simp only [List.length_take, pack_i_length]
      omega
    rw [read_int_trunc fd hl]
    exact ⟨_, rfl⟩
  · have hrem1 : fd.remaining =
        pack_i ((_block_len b.name b.header b.matrix : Nat) : Int) ++
        ((pack_i ((BLOCK_TYPE_MATRIX : Nat) : Int) ++
        (pack_i (b.name.length : Int) ++
        (b.name ++
        (pack_i (b.header.length : Int) ++
        (headerBytes b.header ++
        (pack_i ((b.matrix.rows : Nat) : Int) ++
        (pack_i ((b.matrix.cols : Nat) : Int) ++
        (tobytes b.matrix ++
        pack_i ((BLOCK_END_SEQUENCE : Nat) : Int))))))))).take (j - 4)) := by
      rw [hremT, take_append_long _ _ j (by rw [pack_i_length]; omega),
        pack_i_length]
    rw [read_int_exact_nat fd _ _ hrem1 hblen]
    dsimp only
    have hrem2 : ({ fd with pos := fd.pos + 4 } : RStream).remaining =
        (pack_i ((BLOCK_TYPE_MATRIX : Nat) : Int) ++
        (pack_i (b.name.length : Int) ++
        (b.name ++
        (pack_i (b.header.length : Int) ++
        (headerBytes b.header ++
        (pack_i ((b.matrix.rows : Nat) : Int) ++
        (pack_i ((b.matrix.cols : Nat) : Int) ++
        (tobytes b.matrix ++
        pack_i ((BLOCK_END_SEQUENCE : Nat) : Int))))))))).take (j - 4) := by
      rw [remaining_at, hrem1, drop_append_len _ _ 4 (pack_i_length _)]
    rcases lt_or_ge j 8 with hr2 | hr2
    · have hr : ({ fd with pos := fd.pos + 4 } : RStream).remaining =
          (pack_i ((BLOCK_TYPE_MATRIX : Nat) : Int)).take (j - 4) := by
        rw [hrem2, take_append_short _ _ _ (by rw [pack_i_length]; omega)]
      have hl : (({ fd with pos := fd.pos + 4 } : RStream).remaining).length < 4 := by
        rw [hr]
        simp only [List.length_take, pack_i_length]
        omega
      rw [read_int_trunc _ hl]
      exact ⟨_, rfl⟩
    · have hrem3 : ({ fd with pos := fd.pos + 4 } : RStream).remaining =
          pack_i ((BLOCK_TYPE_MATRIX : Nat) : Int) ++
          ((pack_i (b.name.length : Int) ++
          (b.name ++
          (pack_i (b.header.length : Int) ++
          (headerBytes b.header ++
          (pack_i ((b.matrix.rows : Nat) : Int) ++
          (pack_i ((b.matrix.cols : Nat) : Int) ++
          (tobytes b.matrix ++
          pack_i ((BLOCK_END_SEQUENCE : Nat) : Int)))))))).take (j - 8)) := by
        rw [hrem2, take_append_long _ _ _ (by rw [pack_i_length]; omega),
          pack_i_length]
        have : j - 4 - 4 = j - 8 := by omega
        rw [this]
      rw [read_int_exact_nat _ _ _ hrem3 (by norm_num [BLOCK_TYPE_MATRIX])]
      dsimp only
      rw [if_neg (show ¬ ((BLOCK_TYPE_MATRIX : Nat) : Int) ≠ (BLOCK_TYPE_MATRIX : Int)
        from by simp)]
      have hrem4 : ({ fd with pos := fd.pos + 4 + 4 } : RStream).remaining =
          (pack_i (b.name.length : Int) ++
          (b.name ++
          (pack_i (b.header.length : Int) ++
          (headerBytes b.header ++
          (pack_i ((b.matrix.rows : Nat) : Int) ++
          (pack_i ((b.matrix.cols : Nat) : Int) ++
          (tobytes b.matrix ++
          pack_i ((BLOCK_END_SEQUENCE : Nat) : Int)))))))).take (j - 8) := by
        rw [remaining_at, hrem3, drop_append_len _ _ 4 (pack_i_length _)]
      rcases lt_or_ge j 12 with hr3 | hr3
      · have hr : ({ fd with pos := fd.pos + 4 + 4 } : RStream).remaining =
            (pack_i (b.name.length : Int)).take (j - 8) := by
          rw [hrem4, take_append_short _ _ _ (by rw [pack_i_length]; omega)]
        have hl : (({ fd with pos := fd.pos + 4 + 4 } : RStream).remaining).length < 4 := by
          rw [hr]
          simp only [List.length_take, pack_i_length]
          omega
        rw [read_str_trunc_int _ hl]
        exact ⟨_, rfl⟩
      · rcases lt_or_ge j (12 + b.name.length) with hr4 | hr4
        · have hr : ({ fd with pos := fd.pos + 4 + 4 } : RStream).remaining =
              pack_i (b.name.length : Int) ++ b.name.take (j - 12) := by
            rw [hrem4, take_append_long _ _ _ (by rw [pack_i_length]; omega),
              pack_i_length, take_append_short _ _ _ (by omega)]
            have : j - 8 - 4 = j - 12 := by omega
            rw [this]
          rcases read_str_trunc _ b.name (j - 12) hnlen (by omega) hr with
            hcase | ⟨t, fd', hok, hemp⟩
          · rw [hcase]
            exact ⟨_, rfl⟩
          · rw [hok]
            dsimp only
            rw [read_int_empty fd' hemp]
            exact ⟨_, rfl⟩
        · have hrem5 : ({ fd with pos := fd.pos + 4 + 4 } : RStream).remaining =
              pack_i (b.name.length : Int) ++
              (b.name ++
              ((pack_i (b.header.length : Int) ++
              (headerBytes b.header ++
              (pack_i ((b.matrix.rows : Nat) : Int) ++
              (pack_i ((b.matrix.cols : Nat) : Int) ++
              (tobytes b.matrix ++
              pack_i ((BLOCK_END_SEQUENCE : Nat) : Int)))))).take
                (j - 12 - b.name.length))) := by
            rw [hrem4, take_append_long _ _ _ (by rw [pack_i_length]; omega),
              pack_i_length, take_append_long _ _ _ (by omega)]
            have : j - 8 - 4 - b.name.length = j - 12 - b.name.length := by omega
            rw [this]
          rw [read_str_exact _ b.name _ hrem5 hne hnlen]
          dsimp only
          have hrem6 : ({ fd with pos := fd.pos + 4 + 4 + (4 + b.name.length) } :
              RStream).remaining =
              (pack_i (b.header.length : Int) ++
              (headerBytes b.header ++
              (pack_i ((b.matrix.rows : Nat) : Int) ++
              (pack_i ((b.matrix.cols : Nat) : Int) ++
              (tobytes b.matrix ++
              pack_i ((BLOCK_END_SEQUENCE : Nat) : Int)))))).take
                (j - 12 - b.name.length) := by
            rw [remaining_at, hrem5, ← List.append_assoc,
              drop_append_len _ _ _ (by simp [pack_i_length])]
          rcases lt_or_ge j (16 + b.name.length) with hr5 | hr5
          · have hr : ({ fd with pos := fd.pos + 4 + 4 + (4 + b.name.length) } :
                RStream).remaining =
                (pack_i (b.header.length : Int)).take (j - 12 - b.name.length) := by
              rw [hrem6, take_append_short _ _ _ (by rw [pack_i_length]; omega)]
            have hl : (({ fd with pos := fd.pos + 4 + 4 + (4 + b.name.length) } :
                RStream).remaining).length < 4 := by
              rw [hr]
              simp only [List.length_take, pack_i_length]
              omega
            rw [read_int_trunc _ hl]
            exact ⟨_, rfl⟩
          · have hrem7 : ({ fd with pos := fd.pos + 4 + 4 + (4 + b.name.length) } :
                RStream).remaining =
                pack_i (b.header.length : Int) ++
                ((headerBytes b.header ++
                (pack_i ((b.matrix.rows : Nat) : Int) ++
                (pack_i ((b.matrix.cols : Nat) : Int) ++
                (tobytes b.matrix ++
                pack_i ((BLOCK_END_SEQUENCE : Nat) : Int))))).take
                  (j - 16 - b.name.length)) := by
              rw [hrem6, take_append_long _ _ _ (by rw [pack_i_length]; omega),
                pack_i_length]
              have : j - 12 - b.name.length - 4 = j - 16 - b.name.length := by
                omega
              rw [this]
            rw [read_int_exact_nat _ _ _ hrem7 hcount]
            dsimp only
            have htoNat : ((b.header.length : Int)).toNat = b.header.length := by
              omega
            rw [htoNat]
            have hrem8 : ({ fd with
                pos := fd.pos + 4 + 4 + (4 + b.name.length) + 4 } :
                RStream).remaining =
                (headerBytes b.header ++
                (pack_i ((b.matrix.rows : Nat) : Int) ++
                (pack_i ((b.matrix.cols : Nat) : Int) ++
                (tobytes b.matrix ++
                pack_i ((BLOCK_END_SEQUENCE : Nat) : Int))))).take
                  (j - 16 - b.name.length) := by
              rw [remaining_at, hrem7, drop_append_len _ _ 4 (pack_i_length _)]
            rcases lt_or_ge j (16 + b.name.length + (headerBytes b.header).length)
              with hr6 | hr6
            · have hr : ({ fd with
                  pos := fd.pos + 4 + 4 + (4 + b.name.length) + 4 } :
                  RStream).remaining =
                  (headerBytes b.header).take (j - 16 - b.name.length) := by
                rw [hrem8, take_append_short _ _ _ (by omega)]
              obtain ⟨e, he⟩ := readHeader_trunc b.header _ _ hreadable
                (by omega) hr
              rw [he]
              exact ⟨_, rfl⟩
            · have hrem9 : ({ fd with
                  pos := fd.pos + 4 + 4 + (4 + b.name.length) + 4 } :
                  RStream).remaining =
                  headerBytes b.header ++
                  ((pack_i ((b.matrix.rows : Nat) : Int) ++
                  (pack_i ((b.matrix.cols : Nat) : Int) ++
                  (tobytes b.matrix ++
                  pack_i ((BLOCK_END_SEQUENCE : Nat) : Int)))).take
                    (j - 16 - b.name.length - (headerBytes b.header).length)) := by
                rw [hrem8, take_append_long _ _ _ (by omega)]
              rw [readHeader_exact b.header _ _ hreadable hrem9]
              dsimp only
              have hrem10 : ({ fd with
                  pos := fd.pos + 4 + 4 + (4 + b.name.length) + 4 +
                    (headerBytes b.header).length } : RStream).remaining =
                  (pack_i ((b.matrix.rows : Nat) : Int) ++
                  (pack_i ((b.matrix.cols : Nat) : Int) ++
                  (tobytes b.matrix ++
                  pack_i ((BLOCK_END_SEQUENCE : Nat) : Int)))).take
                    (j - 16 - b.name.length - (headerBytes b.header).length) := by
                rw [remaining_at, hrem9, drop_append_len _ _ _ rfl]
              rcases lt_or_ge j
                (20 + b.name.length + (headerBytes b.header).length) with hr7 | hr7
              · have hr : ({ fd with
                    pos := fd.pos + 4 + 4 + (4 + b.name.length) + 4 +
                      (headerBytes b.header).length } : RStream).remaining =
                    (pack_i ((b.matrix.rows : Nat) : Int)).take
                      (j - 16 - b.name.length - (headerBytes b.header).length) := by
                  rw [hrem10, take_append_short _ _ _ (by rw [pack_i_length]; omega)]
                have hl : (({ fd with
                    pos := fd.pos + 4 + 4 + (4 + b.name.length) + 4 +
                      (headerBytes b.header).length } :
                    RStream).remaining).length < 4 := by
                  rw [hr]
                  simp only [List.length_take, pack_i_length]
                  omega
                rw [read_int_trunc _ hl]
                exact ⟨_, rfl⟩
              · have hrem11 : ({ fd with
                    pos := fd.pos + 4 + 4 + (4 + b.name.length) + 4 +
                      (headerBytes b.header).length } : RStream).remaining =
                    pack_i ((b.matrix.rows : Nat) : Int) ++
                    ((pack_i ((b.matrix.cols : Nat) : Int) ++
                    (tobytes b.matrix ++
                    pack_i ((BLOCK_END_SEQUENCE : Nat) : Int))).take
                      (j - 20 - b.name.length - (headerBytes b.header).length)) := by
                  rw [hrem10, take_append_long _ _ _ (by rw [pack_i_length]; omega),
                    pack_i_length]
                  have : j - 16 - b.name.length - (headerBytes b.header).length - 4 =
                      j - 20 - b.name.length - (headerBytes b.header).length := by
                    omega
                  rw [this]
                rw [read_int_exact_nat _ _ _ hrem11 hrows]
                dsimp only
                have hrem12 : ({ fd with
                    pos := fd.pos + 4 + 4 + (4 + b.name.length) + 4 +
                      (headerBytes b.header).length + 4 } : RStream).remaining =
                    (pack_i ((b.matrix.cols : Nat) : Int) ++
                    (tobytes b.matrix ++
                    pack_i ((BLOCK_END_SEQUENCE : Nat) : Int))).take
                      (j - 20 - b.name.length - (headerBytes b.header).length) := by
                  rw [remaining_at, hrem11, drop_append_len _ _ 4 (pack_i_length _)]
                rcases lt_or_ge j
                  (24 + b.name.length + (headerBytes b.header).length) with hr8 | hr8
                · have hr : ({ fd with
                      pos := fd.pos + 4 + 4 + (4 + b.name.length) + 4 +
                        (headerBytes b.header).length + 4 } : RStream).remaining =
                      (pack_i ((b.matrix.cols : Nat) : Int)).take
                        (j - 20 - b.name.length - (headerBytes b.header).length) := by
                    rw [hrem12, take_append_short _ _ _ (by rw [pack_i_length]; omega)]
                  have hl : (({ fd with
                      pos := fd.pos + 4 + 4 + (4 + b.name.length) + 4 +
                        (headerBytes b.header).length + 4 } :
                      RStream).remaining).length < 4 := by
                    rw [hr]
                    simp only [List.length_take, pack_i_length]
                    omega
                  rw [read_int_trunc _ hl]
                  exact ⟨_, rfl⟩
                · have hrem13 : ({ fd with
                      pos := fd.pos + 4 + 4 + (4 + b.name.length) + 4 +
                        (headerBytes b.header).length + 4 } : RStream).remaining =
                      pack_i ((b.matrix.cols : Nat) : Int) ++
                      ((tobytes b.matrix ++
                      pack_i ((BLOCK_END_SEQUENCE : Nat) : Int)).take
                        (j - 24 - b.name.length -
                          (headerBytes b.header).length)) := by
                    rw [hrem12, take_append_long _ _ _
                      (by rw [pack_i_length]; omega), pack_i_length]
                    have : j - 20 - b.name.length - (headerBytes b.header).length - 4 =
                        j - 24 - b.name.length - (headerBytes b.header).length := by
                      omega
                    rw [this]
                  rw [read_int_exact_nat _ _ _ hrem13
                    (by rw [hcols]; exact hcount)]
                  dsimp only
                  rw [if_neg (show ¬ ((b.matrix.cols : Nat) : Int) ≠
                    (b.header.length : Int) from by rw [hcols]; simp)]
                  obtain ⟨fmt, hfmt, hfl⟩ := header_to_dtype_ok b.header
                    (fun e he => (hvalid e he).2)
                  rw [hfmt]
                  dsimp only
                  have hq : j - 24 - b.name.length - (headerBytes b.header).length <
                      (tobytes b.matrix).length := by
                    omega
                  have hrem14 : ({ fd with
                      pos := fd.pos + 4 + 4 + (4 + b.name.length) + 4 +
                        (headerBytes b.header).length + 4 + 4 } :
                      RStream).remaining =
                      (tobytes b.matrix).take
                        (j - 24 - b.name.length - (headerBytes b.header).length) := by
                    rw [remaining_at, hrem13, drop_append_len _ _ 4 (pack_i_length _),
                      take_append_short _ _ _ (by omega)]
                  have hcast : ((b.matrix.rows : Nat) : Int) *
                      ((b.matrix.cols : Nat) : Int) * (NUMBER_LEN : Int) =
                      ((b.matrix.rows * b.matrix.cols * NUMBER_LEN : Nat) : Int) := by
                    push_cast
                    ring
                  have hlt : (({ fd with
                      pos := fd.pos + 4 + 4 + (4 + b.name.length) + 4 +
                        (headerBytes b.header).length + 4 + 4 } :
                      RStream).remaining).length <
                      ((b.matrix.rows * b.matrix.cols * NUMBER_LEN : Nat) : Int).toNat := by
                    rw [hrem14]
                    simp only [List.length_take]
                    omega
                  have hshort := read_short _ _ (by omega) hlt
                  rw [hcast, hshort.1]
                  dsimp only
                  rcases frombuffer_cases (({ fd with
                      pos := fd.pos + 4 + 4 + (4 + b.name.length) + 4 +
                        (headerBytes b.header).length + 4 + 4 } :
                      RStream).remaining) fmt (by rw [hfl, ← hcols]; omega) with
                    hfb | ⟨m, hfb⟩
                  · rw [hfb]
                    exact ⟨_, rfl⟩
                  · rw [hfb]
                    dsimp only
                    split
                    · exact ⟨_, rfl⟩
                    · rw [read_int_empty _ hshort.2]
                      exact ⟨_, rfl⟩

/-- Claim C4, amended: truncating the frame written for any valid block
at any byte offset strictly before the end marker makes the reader fail
with some error — `UnexpectedEndOfStream` when the failing read gets
nothing, but `struct.error` on a partially cut 4-byte field,
`ValueError` on a misaligned partial payload, or `FrameLengthMismatch`
on a seekable source with a short payload — and never returns a
silently wrong block. -/
theorem C4_truncation (b : Block) (k : Nat) (sk : Bool) (h : ValidBlock b)
    (hk : k + 4 < (serialiseBlock b).sink.length) :
    ∃ e, deseralise ⟨((serialiseBlock b).sink).take k, 0, sk⟩ = .error e := by
  rw [serialise_ok b h.1] at hk ⊢
  dsimp only at hk ⊢
  have hfb : (frameBytes b).length = 4 + (frameTail b).length := by
    show (pack_i (BLOCK_START_SEQUENCE : Int) ++ frameTail b).length = _
    simp [pack_i_length]
  rcases lt_or_ge k 4 with h4 | h4
  · unfold deseralise _synchronise
    have hrem : (⟨(frameBytes b).take k, 0, sk⟩ : RStream).remaining =
        (pack_i (BLOCK_START_SEQUENCE : Int)).take k := by
      show List.drop 0 _ = _
      rw [List.drop_zero]
      show (pack_i (BLOCK_START_SEQUENCE : Int) ++ frameTail b).take k = _
      rw [take_append_short _ _ k (by rw [pack_i_length]; omega)]
    rw [hrem, syncAux_short _ (by
      simp only [List.length_take, pack_i_length]
      omega)]
    exact ⟨_, rfl⟩
  · unfold deseralise
    have hrem : (⟨(frameBytes b).take k, 0, sk⟩ : RStream).remaining =
        pack_i (BLOCK_START_SEQUENCE : Int) ++ (frameTail b).take (k - 4) := by
      show List.drop 0 _ = _
      rw [List.drop_zero]
      show (pack_i (BLOCK_START_SEQUENCE : Int) ++ frameTail b).take k = _
      rw [take_append_long _ _ k (by rw [pack_i_length]; omega), pack_i_length]
    rw [synchronise_frame _ _ hrem]
    dsimp only
    apply deseraliseBody_truncated b _ (k - 4) h (by omega)
    rw [remaining_at, hrem, drop_append_len _ _ 4 (pack_i_length _)]

theorem C4_truncation_witness :
    ∃ e, deseralise ⟨((serialiseBlock sampleBlock).sink).take 17, 0, true⟩ =
      .error e :=
  C4_truncation sampleBlock 17 true (by decide) (by decide)

/-- `_read_str` on a zero-length string: `fd.read(0)` returns the empty
string, which is falsy, so the reader raises end-of-stream. -/
theorem read_str_zero (fd : RStream) (rest : List Byte)
    (hrem : fd.remaining = pack_i ((0 : Nat) : Int) ++ rest) :
    _read_str fd = .error .unexpectedEndOfStream := by
  unfold _read_str
  rw [read_int_exact_nat fd 0 rest hrem (by norm_num)]
  dsimp only
  rw [read_len _ [] (({ fd with pos := fd.pos + 4 } : RStream).remaining) 0
    (List.nil_append _).symm rfl]
  simp

/-- The header loop raises end-of-stream at the first zero-length column
name, even on a stream holding exactly what the writer emitted. -/
theorem readHeader_empty (hs : List HeaderEntry) (fd : RStream)
    (rest : List Byte)
    (hgood : ∀ e ∈ hs, e.name.length < 2 ^ 31 ∧ -(2 ^ 31) ≤ e.type ∧
      e.type < 2 ^ 31)
    (hbad : ∃ e ∈ hs, e.name = [])
    (hrem : fd.remaining = headerBytes hs ++ rest) :
    readHeader hs.length fd = .error .unexpectedEndOfStream := by
  induction hs generalizing fd with
  | nil =>
    rcases hbad with ⟨e, he, _⟩
    cases he
  | cons e hs ih =>
    show readHeader (hs.length + 1) fd = _
    unfold readHeader
    rcases Decidable.em (e.name = []) with he | he
    · have hshape : fd.remaining = pack_i ((0 : Nat) : Int) ++
          (pack_i e.type ++ (headerBytes hs ++ rest)) := by
        rw [hrem]
        simp [headerBytes, entryBytes, he]
      rw [read_str_zero fd _ hshape]
    · obtain ⟨h1, h2, h3⟩ := hgood e (by simp)
      have hshape : fd.remaining = pack_i (e.name.length : Int) ++
          (e.name ++ (pack_i e.type ++ (headerBytes hs ++ rest))) := by
        rw [hrem]
        simp [headerBytes, entryBytes]
      rw [read_str_exact fd e.name _ hshape he h1]
      dsimp only
      have hrem1 : ({ fd with pos := fd.pos + (4 + e.name.length) } :
          RStream).remaining = pack_i e.type ++ (headerBytes hs ++ rest) := by
        rw [remaining_advance, hshape, ← List.append_assoc,
          drop_append_len _ _ (4 + e.name.length) (by simp [pack_i_length])]
      rw [read_int_exact _ e.type _ hrem1 h2 h3]
      dsimp only
      have hrem2 : ({ fd with pos := fd.pos + (4 + e.name.length) + 4 } :
          RStream).remaining = headerBytes hs ++ rest := by
        rw [remaining_at, hrem1, drop_append_len _ _ 4 (pack_i_length _)]
      have hbad2 : ∃ x ∈ hs, x.name = [] := by
        rcases hbad with ⟨x, hx, hxe⟩
        rcases List.mem_cons.mp hx with rfl | hx2
        · exact absurd hxe he
        · exact ⟨x, hx2, hxe⟩
      rw [ih _ (fun x hx => hgood x (List.mem_cons_of_mem e hx)) hbad2 hrem2]

/-- The body parser raises end-of-stream on a frame whose block name or
some column name is empty. -/
theorem deseraliseBody_empty_name (b : Block) (fd : RStream)
    (post : List Byte)
    (hname : b.name.length ≤ MAX_STR_SIZE) (hheader : headerWritable b.header)
    (hblen : _block_len b.name b.header b.matrix < 2 ^ 31)
    (hempty : b.name = [] ∨ ∃ e ∈ b.header, e.name = [])
    (hrem : fd.remaining = frameTail b ++ post) :
    deseraliseBody fd = .error .unexpectedEndOfStream := by
  have hrem1 : fd.remaining =
      pack_i ((_block_len b.name b.header b.matrix : Nat) : Int) ++
      (pack_i ((BLOCK_TYPE_MATRIX : Nat) : Int) ++
      (pack_i (b.name.length : Int) ++
      (b.name ++
      (pack_i (b.header.length : Int) ++
      (headerBytes b.header ++
      (pack_i ((b.matrix.rows : Nat) : Int) ++
      (pack_i ((b.matrix.cols : Nat) : Int) ++
      (tobytes b.matrix ++
      (pack_i ((BLOCK_END_SEQUENCE : Nat) : Int) ++ post))))))))) := by
    rw [hrem]
    unfold frameTail frameTailWithLen
    simp [List.append_assoc]
  unfold deseraliseBody
  rw [read_int_exact_nat fd _ _ hrem1 hblen]
  dsimp only
  have hrem2 : ({ fd with pos := fd.pos + 4 } : RStream).remaining =
      pack_i ((BLOCK_TYPE_MATRIX : Nat) : Int) ++
      (pack_i (b.name.length : Int) ++
      (b.name ++
      (pack_i (b.header.length : Int) ++
      (headerBytes b.header ++
      (pack_i ((b.matrix.rows : Nat) : Int) ++
      (pack_i ((b.matrix.cols : Nat) : Int) ++
      (tobytes b.matrix ++
      (pack_i ((BLOCK_END_SEQUENCE : Nat) : Int) ++ post)))))))) := by
    rw [remaining_at, hrem1, drop_append_len _ _ 4 (pack_i_length _)]
  rw [read_int_exact_nat _ _ _ hrem2 (by norm_num [BLOCK_TYPE_MATRIX])]
  dsimp only
  rw [if_neg (show ¬ ((BLOCK_TYPE_MATRIX : Nat) : Int) ≠ (BLOCK_TYPE_MATRIX : Int)
    from by simp)]
  have hrem3 : ({ fd with pos := fd.pos + 4 + 4 } : RStream).remaining =
      pack_i (b.name.length : Int) ++
      (b.name ++
      (pack_i (b.header.length : Int) ++
      (headerBytes b.header ++
      (pack_i ((b.matrix.rows : Nat) : Int) ++
      (pack_i ((b.matrix.cols : Nat) : Int) ++
      (tobytes b.matrix ++
      (pack_i ((BLOCK_END_SEQUENCE : Nat) : Int) ++ post))))))) := by
    rw [remaining_at, hrem2, drop_append_len _ _ 4 (pack_i_length _)]
  rcases Decidable.em (b.name = []) with hn | hn
  · have hshape : ({ fd with pos := fd.pos + 4 + 4 } : RStream).remaining =
        pack_i ((0 : Nat) : Int) ++
        (pack_i (b.header.length : Int) ++
        (headerBytes b.header ++
        (pack_i ((b.matrix.rows : Nat) : Int) ++
        (pack_i ((b.matrix.cols : Nat) : Int) ++
        (tobytes b.matrix ++
        (pack_i ((BLOCK_END_SEQUENCE : Nat) : Int) ++ post)))))) := by
      rw [hrem3, hn]
      simp
    rw [read_str_zero _ _ hshape]
  · have hcol : ∃ e ∈ b.header, e.name = [] := hempty.resolve_left hn
    rw [read_str_exact _ b.name _ hrem3 hn
      (by unfold MAX_STR_SIZE at hname; omega)]
    dsimp only
    have hrem4 : ({ fd with pos := fd.pos + 4 + 4 + (4 + b.name.length) } :
        RStream).remaining =
        pack_i (b.header.length : Int) ++
        (headerBytes b.header ++
        (pack_i ((b.matrix.rows : Nat) : Int) ++
        (pack_i ((b.matrix.cols : Nat) : Int) ++
        (tobytes b.matrix ++
        (pack_i ((BLOCK_END_SEQUENCE : Nat) : Int) ++ post))))) := by
      rw [remaining_at, hrem3, ← List.append_assoc,
        drop_append_len _ _ (4 + b.name.length) (by simp [pack_i_length])]
    rw [read_int_exact_nat _ _ _ hrem4 (count_lt_of_block_len b hblen)]
    dsimp only
    have htoNat : ((b.header.length : Int)).toNat = b.header.length := by omega
    rw [htoNat]
    have hrem5 : ({ fd with pos := fd.pos + 4 + 4 + (4 + b.name.length) + 4 } :
        RStream).remaining =
        headerBytes b.header ++
        (pack_i ((b.matrix.rows : Nat) : Int) ++
        (pack_i ((b.matrix.cols : Nat) : Int) ++
        (tobytes b.matrix ++
        (pack_i ((BLOCK_END_SEQUENCE : Nat) : Int) ++ post)))) := by
      rw [remaining_at, hrem4, drop_append_len _ _ 4 (pack_i_length _)]
    have hgood : ∀ e ∈ b.header, e.name.length < 2 ^ 31 ∧
        -(2 ^ 31) ≤ e.type ∧ e.type < 2 ^ 31 := by
      intro e he
      obtain ⟨h1, h2, h3⟩ := hheader e he
      exact ⟨by unfold MAX_STR_SIZE at h1; omega, h2, h3⟩
    rw [readHeader_empty b.header _ _ hgood hcol hrem5]

/-- Claim C9: the writer accepts and serialises empty names, but the
reader raises end-of-stream when it meets the zero-length string, so the
read-after-write round trip fails for every block containing an empty
block name or column name. -/
theorem C9_empty_name (b : Block) (sk : Bool) (hw : WritableBlock b)
    (hempty : b.name = [] ∨ ∃ e ∈ b.header, e.name = []) :
    (serialiseBlock b).err = none ∧
    deseralise ⟨(serialiseBlock b).sink, 0, sk⟩ =
      .error .unexpectedEndOfStream := by
  obtain ⟨hname, hheader, hcols, hdata, hrows, hblen⟩ := hw
  rw [serialise_ok b ⟨hname, hheader, hcols, hdata, hrows, hblen⟩]
  refine ⟨rfl, ?_⟩
  show deseralise ⟨frameBytes b, 0, sk⟩ = _
  unfold deseralise
  have hrem : (⟨frameBytes b, 0, sk⟩ : RStream).remaining =
      pack_i (BLOCK_START_SEQUENCE : Int) ++ frameTail b := by
    show List.drop 0 _ = _
    rw [List.drop_zero]
    rfl
  rw [synchronise_frame _ _ hrem]
  dsimp only
  apply deseraliseBody_empty_name b _ [] hname hheader hblen hempty
  rw [remaining_at, hrem, drop_append_len _ _ 4 (pack_i_length _),
    List.append_nil]

theorem C9_empty_name_witness :
    (serialiseBlock emptyNameBlock).err = none ∧
    deseralise ⟨(serialiseBlock emptyNameBlock).sink, 0, false⟩ =
      .error .unexpectedEndOfStream :=
  C9_empty_name emptyNameBlock false (by decide) (Or.inl (by decide))

theorem C8_length_check_witness :
    (99 : Nat) < 2 ^ 31 ∧
    (99 : Nat) ≠ _block_len sampleBlock.name sampleBlock.header sampleBlock.matrix ∧
    (deseralise ⟨pack_i (BLOCK_START_SEQUENCE : Int) ++
        frameTailWithLen sampleBlock 99, 0, true⟩ =
      .error .frameLengthMismatch ∧
    deseralise ⟨pack_i (BLOCK_START_SEQUENCE : Int) ++
        frameTailWithLen sampleBlock 99, 0, false⟩ = .ok sampleBlock) :=
  ⟨by decide, by decide,
    C8_length_check sampleBlock 99 (by decide) (by decide) (by decide)⟩

end Binnf
